import Mathlib

/-!
Verification of the denormalized aggregate consistency engine of the
placement-tracking backend: the student cascade deletion service
(`services/student_deletion.py`), the system-stats counter maintainer
(`utils/system_stats.py`), and the dashboard summary endpoint
(`app.py`, `get_dashboard_summary`).

The document store is modelled with association lists (document id to
document).  The `years` collection is keyed by the year number: the
source uses `str(year)` as the document key, which is an injective
encoding of the number, so the numeric key is a faithful model of the
key space.  Server timestamps are modelled by an explicit `now : Nat`
parameter.  Firestore batch updates to a missing document would fail the
commit; the model treats them as leaving the store unchanged, and the
theorems about counter effects are phrased through `Option.map`, which
makes them vacuously exact on missing documents.
-/

/-- Generic association-list lookup by key (first match wins), the model of a
document read by id. -/
def lookupA {α β : Type} [DecidableEq α] (k : α) : List (α × β) → Option β
  | [] => none
  | p :: ps => if p.1 = k then some p.2 else lookupA k ps

/-- Generic association-list update: apply `f` to the document stored at key
`k`, leave every other document unchanged.  A missing key is left missing. -/
def updAssoc {α β : Type} [DecidableEq α] (l : List (α × β)) (k : α) (f : β → β) :
    List (α × β) :=
  l.map fun p => if p.1 = k then (p.1, f p.2) else p

/-- A row of a `data` sub-collection under a round: carries its document id and
the `studentId` field the deletion query filters on. -/
structure RoundDataRow where
  id : String
  studentId : String
deriving DecidableEq

/-- A round document under a company, with its `data` sub-collection. -/
structure Round where
  id : String
  data : List RoundDataRow
deriving DecidableEq

/-- A Company-Year document: aggregate counters, metadata, and its `rounds` and
`placements` sub-collections.  `placements` is the list of student ids that
have a placement document under this company. -/
structure Company where
  totalApplied : Int
  totalPlaced : Int
  status : Option String
  year : Option Nat
  companyName : Option String
  updatedAt : Nat
  rounds : List Round
  placements : List String
deriving DecidableEq

/-- One entry of a student `companyStatus` map. -/
structure CompanyInfo where
  year : Option Nat
  finalSelection : Bool
deriving DecidableEq

/-- A student document. `companyStatus` is a dict keyed by Company-Year id
(as a Python dict its keys are unique; theorems that need this take it as a
`Nodup` hypothesis). -/
structure Student where
  name : Option String
  currentStatus : Option String
  totalOffers : Int
  companyStatus : List (String × CompanyInfo)
deriving DecidableEq

/-- One entry of a Year document `companyWise` map. -/
structure CWEntry where
  companyName : Option String
  placed : Int
  status : Option String
deriving DecidableEq

/-- A Year document. -/
structure YearDoc where
  totalStudentsParticipated : Int
  totalPlaced : Int
  totalCompanies : Int
  companyWise : List (String × CWEntry)
  updatedAt : Nat
deriving DecidableEq

/-- The document store: the three top-level collections the core touches. -/
structure DB where
  students : List (String × Student)
  companies : List (String × Company)
  years : List (Nat × YearDoc)
deriving DecidableEq

/-- A write operation enqueued on a Firestore batch by the cascade. -/
inductive WriteOp where
  | deletePlacement (companyYearId studentId : String)
  | deleteRoundData (companyYearId roundId dataId : String)
  | updateCompany (companyYearId : String) (wasPlaced : Bool)
  | updateYear (year : Nat) (placedCompanyIds : List String)
  | deleteStudent (studentId : String)
deriving DecidableEq

/-- Decrement the `placed` field of one `companyWise` entry, the model of the
Firestore nested-field increment `companyWise.<id>.placed: Increment(-1)`:
on a present entry the field is decremented, on a missing entry the nested
field is created holding `-1`. -/
def cwDec (cw : List (String × CWEntry)) (cid : String) : List (String × CWEntry) :=
  if (lookupA cid cw).isSome then
    updAssoc cw cid fun e => { e with placed := e.placed - 1 }
  else cw ++ [(cid, { companyName := none, placed := -1, status := none })]

/-- Apply one committed write operation to the store. -/
def applyOp (now : Nat) (db : DB) (op : WriteOp) : DB :=
  match op with
  | .deletePlacement cid sid =>
      { db with companies := updAssoc db.companies cid fun c =>
          { c with placements := c.placements.filter (· ≠ sid) } }
  | .deleteRoundData cid rid did =>
      { db with companies := updAssoc db.companies cid fun c =>
          { c with rounds := c.rounds.map fun rd =>
              if rd.id = rid then { rd with data := rd.data.filter (·.id ≠ did) }
              else rd } }
  | .updateCompany cid wasPlaced =>
      { db with companies := updAssoc db.companies cid fun c =>
          { c with totalApplied := c.totalApplied - 1,
                   totalPlaced := if wasPlaced then c.totalPlaced - 1 else c.totalPlaced,
                   updatedAt := now } }
  | .updateYear y placedCids =>
      { db with years := updAssoc db.years y fun yd =>
          { yd with totalStudentsParticipated := yd.totalStudentsParticipated - 1,
                    totalPlaced := if placedCids.length > 0 then
                        yd.totalPlaced - placedCids.length
                      else yd.totalPlaced,
                    companyWise := placedCids.foldl cwDec yd.companyWise,
                    updatedAt := now } }
  | .deleteStudent sid =>
      { db with students := db.students.filter (·.1 ≠ sid) }

/-- The mutable batch state of the cascade: the pending batch, the running
`operation_count`, and the batches committed so far (in commit order). -/
structure BState where
  batch : List WriteOp
  opCount : Nat
  committed : List (List WriteOp)
deriving DecidableEq

/-- The fresh batch state of step 2 of the cascade. -/
def emptyBState : BState := ⟨[], 0, []⟩

/-- Enqueue one operation on the pending batch and bump the counter. -/
def enqueue (st : BState) (op : WriteOp) : BState :=
  { st with batch := st.batch ++ [op], opCount := st.opCount + 1 }

/-- Commit the pending batch: it is appended to the committed list and a fresh
empty batch is started with the counter reset to zero. -/
def commitBatch (st : BState) : BState :=
  ⟨[], 0, st.committed ++ [st.batch]⟩

/-- The batch-ceiling check of the source: commit when the running count has
reached 500. -/
def checkCommit (st : BState) : BState :=
  if st.opCount ≥ 500 then commitBatch st else st

/-- The running statistics dictionary of the cascade. -/
structure CascadeStats where
  companiesAffected : Nat
  roundsDeleted : Nat
  placementsDeleted : Nat
  yearsAffected : List Nat
  totalOffers : Int
deriving DecidableEq

/-- Add a year value to the affected-year set, the model of
`if year: stats[yearsAffected].add(year)`: a missing or zero (falsy) year is
skipped, and the Python set is modelled as a first-insertion-ordered
duplicate-free list. -/
def addYear (ys : List Nat) : Option Nat → List Nat
  | some y => if y ≠ 0 then (if y ∈ ys then ys else ys ++ [y]) else ys
  | none => ys

/-- The round-data query of the cascade: the `data` rows of a round whose
`studentId` equals the student, limited to one result. -/
def matchedRow (sid : String) (rd : Round) : Option RoundDataRow :=
  (rd.data.filter fun row => row.studentId == sid).head?

/-- Body of the inner loop of step 2 of the cascade: for one round, enqueue
deletion of the (at most one) matching data row, count it, and run the
batch-ceiling check. -/
def processRound (sid cid : String) (acc : BState × CascadeStats) (rd : Round) :
    BState × CascadeStats :=
  match matchedRow sid rd with
  | none => acc
  | some row =>
      (checkCommit (enqueue acc.1 (.deleteRoundData cid rd.id row.id)),
       { acc.2 with roundsDeleted := acc.2.roundsDeleted + 1 })

/-- Body of the outer loop of step 2 of the cascade, for one entry of the
student `companyStatus` map: track the company and its year, enqueue the
placement deletion when `finalSelection` is set (with no ceiling check after
this enqueue, as in the source), delete matching round data, and enqueue the
company counter update followed by a ceiling check. -/
def processCompany (db : DB) (sid : String) (acc : BState × CascadeStats)
    (entry : String × CompanyInfo) : BState × CascadeStats :=
  let stats0 := { acc.2 with
    companiesAffected := acc.2.companiesAffected + 1,
    yearsAffected := addYear acc.2.yearsAffected entry.2.year }
  let wasPlaced := entry.2.finalSelection
  let acc1 : BState × CascadeStats :=
    if wasPlaced then
      (enqueue acc.1 (.deletePlacement entry.1 sid),
       { stats0 with placementsDeleted := stats0.placementsDeleted + 1 })
    else (acc.1, stats0)
  let rounds := ((lookupA entry.1 db.companies).map Company.rounds).getD []
  let acc2 := rounds.foldl (processRound sid entry.1) acc1
  (checkCommit (enqueue acc2.1 (.updateCompany entry.1 wasPlaced)), acc2.2)

/-- The Company-Year ids of one year whose `companyStatus` entry has
`finalSelection` set, in map order: the ids whose `companyWise.<id>.placed`
the year update decrements. -/
def placedCompaniesInYear (cs : List (String × CompanyInfo)) (y : Nat) : List String :=
  (cs.filter fun p => p.2.year == some y && p.2.finalSelection).map Prod.fst

/-- Steps 2 to the final commit of the cascade for an existing student:
process every `companyStatus` entry, enqueue the year-analytics updates
(with no ceiling check, as in the source), enqueue the student deletion,
and commit the remaining operations when any are pending. -/
def cascadeCore (db : DB) (sid : String) (stu : Student) : BState × CascadeStats :=
  let cs := stu.companyStatus
  let stats0 : CascadeStats := ⟨0, 0, 0, [], stu.totalOffers⟩
  let acc := cs.foldl (processCompany db sid) (emptyBState, stats0)
  let st := acc.2.yearsAffected.foldl
    (fun st y => enqueue st (.updateYear y (placedCompaniesInYear cs y))) acc.1
  let st := enqueue st (.deleteStudent sid)
  let st := if st.opCount > 0 then commitBatch st else st
  (st, acc.2)

/-- A value of the JSON-like response dictionary of the cascade. -/
inductive SVal where
  | s : String → SVal
  | n : Nat → SVal
  | obj : List (String × SVal) → SVal

/-- Outcome of a cascade call: the returned summary (or the not-found error),
the committed batches in order, and the resulting store. -/
structure CascadeOutcome where
  result : Except String (List (String × SVal))
  committed : List (List WriteOp)
  db : DB

/-- Apply a list of committed batches to the store in commit order.  The reads
the cascade performs (the student document, each round listing, each round-data
query) never touch a document that an earlier enqueued write of the same run
modifies before the read, so applying the committed batches after the run
produces the same store as the source, which applies each batch at its commit
point. -/
def applyBatches (now : Nat) (db : DB) (batches : List (List WriteOp)) : DB :=
  batches.foldl (fun d b => b.foldl (applyOp now) d) db

/-- The cascade deletion service `delete_student_cascade` of
`services/student_deletion.py`: fail when the student is missing, otherwise
run the cascade core, then delete the student document again in a fresh
single-operation batch (step 5 of the source), and build the response
dictionary. -/
def delete_student_cascade (db : DB) (student_id : String) (now : Nat) :
    CascadeOutcome :=
  match lookupA student_id db.students with
  | none => ⟨.error ("Student " ++ student_id ++ " not found"), [], db⟩
  | some student =>
      let core := cascadeCore db student_id student
      let committed := (commitBatch ⟨[.deleteStudent student_id], 1, core.1.committed⟩).committed
      let stats := core.2
      let result : List (String × SVal) :=
        [("message", .s "Student deleted successfully"),
         ("studentId", .s student_id),
         ("studentName", .s (student.name.getD "Unknown")),
         ("cascadingUpdates", .obj
           [("companiesAffected", .n stats.companiesAffected),
            ("roundsDeleted", .n stats.roundsDeleted),
            ("placementsDeleted", .n stats.placementsDeleted),
            ("yearsAffected", .n stats.yearsAffected.length)])]
      ⟨.ok result, committed, applyBatches now db committed⟩

/-- The `systemStats/dashboard` singleton document of `utils/system_stats.py`.
Counter fields are modelled as a total function with default 0, matching both
the `to_dict().get(field, 0)` reads of the source and the Firestore increment
primitive, which treats a missing numeric field as 0. -/
structure StatsDoc where
  fields : String → Int
  lastUpdated : Option Nat
  initializedAt : Option Nat

/-- The function `increment_stat` of `utils/system_stats.py`.  A negative
value reads the current value and writes the clamped result, skipping the
write entirely when the value is already 0, and creates the document holding 0
when it is absent.  A non-negative value uses the atomic increment primitive
and stamps `lastUpdated`; on an absent document that update raises, and the
handler creates the document holding the value. -/
def increment_stat (st : Option StatsDoc) (field : String) (value : Int)
    (now : Nat) : Option StatsDoc :=
  if value < 0 then
    match st with
    | some doc =>
        let current := doc.fields field
        let new := max 0 (current + value)
        if new = current ∧ current = 0 then some doc
        else some { doc with
          fields := fun f => if f = field then new else doc.fields f,
          lastUpdated := some now }
    | none =>
        some { fields := fun f => if f = field then 0 else 0,
               lastUpdated := some now, initializedAt := none }
  else
    match st with
    | some doc =>
        some { doc with
          fields := fun f => if f = field then doc.fields f + value else doc.fields f,
          lastUpdated := some now }
    | none =>
        some { fields := fun f => if f = field then value else 0,
               lastUpdated := some now, initializedAt := none }

/-- The function `decrement_stat` of `utils/system_stats.py`: an increment of
the negated value. -/
def decrement_stat (st : Option StatsDoc) (field : String) (value : Int)
    (now : Nat) : Option StatsDoc :=
  increment_stat st field (-value) now

/-- The function `get_system_stats` of `utils/system_stats.py`: return the
singleton document, or the zero-valued default record when it is absent. -/
def get_system_stats (st : Option StatsDoc) : StatsDoc :=
  match st with
  | some doc => doc
  | none => { fields := fun _ => 0, lastUpdated := none, initializedAt := none }

/-- The function `initialize_system_stats` of `utils/system_stats.py`
(`rebuildFromSource` of the spec): the document it computes by scanning the
years, companies and students collections in full. -/
def initialize_system_stats (db : DB) (now : Nat) : StatsDoc :=
  let years_count : Int := db.years.length
  let total_companies : Int := db.companies.length
  let completed_companies : Int :=
    db.companies.countP fun c => c.2.status == some "completed"
  let running_companies : Int :=
    db.companies.countP fun c => c.2.status == some "running"
  let total_students : Int := db.students.length
  let placed_count : Int :=
    db.students.countP fun s => s.2.currentStatus.getD "not_placed" == "placed"
  let not_placed_count : Int :=
    db.students.countP fun s => !(s.2.currentStatus.getD "not_placed" == "placed")
  let total_offers : Int := (db.students.map fun s => s.2.totalOffers).sum
  { fields := fun f =>
      if f = "totalYears" then years_count
      else if f = "totalCompanies" then total_companies
      else if f = "completedCompanies" then completed_companies
      else if f = "runningCompanies" then running_companies
      else if f = "totalStudents" then total_students
      else if f = "totalPlaced" then placed_count
      else if f = "totalNotPlaced" then not_placed_count
      else if f = "totalOffers" then total_offers
      else 0,
    lastUpdated := some now,
    initializedAt := some now }

/-- The store effect of `initialize_system_stats`: the singleton is overwritten
wholesale with the recomputed document. -/
def rebuildFromSource (db : DB) (st : Option StatsDoc) (now : Nat) :
    Option StatsDoc :=
  let _ := st
  some (initialize_system_stats db now)

/-- Modelled from the claim, for comparison: an independent full recomputation
of every dashboard counter over the Years, Companies and Students collections,
following the words of the spec. -/
structure SpecCounts where
  totalYears : Nat
  totalCompanies : Nat
  completedCompanies : Nat
  runningCompanies : Nat
  totalStudents : Nat
  totalPlaced : Nat
  totalNotPlaced : Nat
  totalOffers : Int
deriving DecidableEq

/-- Modelled from the claim, for comparison: `totalYears` is the number of
Year documents, `totalCompanies` the number of Company-Year documents split by
`status`, `totalStudents` the number of Student documents split by
`currentStatus`, and `totalOffers` the sum of the students `totalOffers`
fields. -/
def specFullRecount (db : DB) : SpecCounts :=
  { totalYears := db.years.length,
    totalCompanies := db.companies.length,
    completedCompanies := (db.companies.filter fun c => c.2.status == some "completed").length,
    runningCompanies := (db.companies.filter fun c => c.2.status == some "running").length,
    totalStudents := db.students.length,
    totalPlaced := (db.students.filter fun s => s.2.currentStatus.getD "not_placed" == "placed").length,
    totalNotPlaced := (db.students.filter fun s => !(s.2.currentStatus.getD "not_placed" == "placed")).length,
    totalOffers := (db.students.map fun s => s.2.totalOffers).sum }

/-- The `latestYear` section of the dashboard summary response of
`get_dashboard_summary` in `app.py`.  The some-branch spreads the fields of
the year document after the fixed `year` key; the none-branch synthesizes the
empty shape of the source, whose per-document fields are absent (`none`). -/
structure LatestYear where
  year : Nat
  companyWise : List (String × CWEntry)
  totalCompanies : Int
  totalPlaced : Int
  totalStudentsParticipated : Option Int
  updatedAt : Option Nat
deriving DecidableEq

/-- The repair path of the dashboard: rebuild the `companyWise` map from the
Company-Year documents of the given year, projecting name, placed count and
status. -/
def buildCompanyWise (db : DB) (y : Nat) : List (String × CWEntry) :=
  (db.companies.filter fun p => p.2.year == some y).map fun p =>
    (p.1, { companyName := some (p.2.companyName.getD "Unknown"),
            placed := p.2.totalPlaced,
            status := some (p.2.status.getD "unknown") })

/-- The dashboard summary response of `get_dashboard_summary` in `app.py`. -/
structure DashboardSummary where
  countsYears : Int
  countsCompanies : Int
  countsStudents : Int
  statsTotalCompanies : Int
  statsCompletedCompanies : Int
  statsRunningCompanies : Int
  statsTotalPlaced : Int
  latestYear : LatestYear
  recentCompanies : List (String × Company)

/-- Read of a stat field as the route performs it: `get_system_stats` followed
by `.get(field, 0)`, which the zero-default total-function model renders as a
plain field read of the returned document. -/
def statsGet (st : Option StatsDoc) (f : String) : Int :=
  (get_system_stats st).fields f

/-- The `latestYear` computation of `get_dashboard_summary` in `app.py`: read
the Year document with the hardcoded key 2026, synthesize an empty shape when
it is absent, and rebuild `companyWise` from the companies of year 2026 when
it is empty. -/
def dashboard_latest_year (db : DB) : LatestYear :=
  let current_year : Nat := 2026
  let latest_year : LatestYear :=
    match lookupA current_year db.years with
    | some yd =>
        { year := current_year, companyWise := yd.companyWise,
          totalCompanies := yd.totalCompanies, totalPlaced := yd.totalPlaced,
          totalStudentsParticipated := some yd.totalStudentsParticipated,
          updatedAt := some yd.updatedAt }
    | none =>
        { year := current_year, companyWise := [], totalCompanies := 0,
          totalPlaced := 0, totalStudentsParticipated := none, updatedAt := none }
  if latest_year.companyWise.length = 0 then
    { latest_year with companyWise := buildCompanyWise db current_year }
  else latest_year

/-- The endpoint `get_dashboard_summary` of `app.py`: read the stats
singleton, compute the `latestYear` section, and attach the five most
recently updated companies. -/
def get_dashboard_summary (db : DB) (st : Option StatsDoc) : DashboardSummary :=
  { countsYears := statsGet st "totalYears",
    countsCompanies := statsGet st "totalCompanies",
    countsStudents := statsGet st "totalStudents",
    statsTotalCompanies := statsGet st "totalCompanies",
    statsCompletedCompanies := statsGet st "completedCompanies",
    statsRunningCompanies := statsGet st "runningCompanies",
    statsTotalPlaced := statsGet st "totalPlaced",
    latestYear := dashboard_latest_year db,
    recentCompanies :=
      (db.companies.mergeSort fun a b => decide (b.2.updatedAt ≤ a.2.updatedAt)).take 5 }

/-- Modelled from the claim, for comparison: the same cascade but performing
the student-document deletion exactly once, without the duplicate
single-operation deletion batch of step 5 of the source. -/
def delete_student_cascade_once (db : DB) (student_id : String) (now : Nat) :
    CascadeOutcome :=
  match lookupA student_id db.students with
  | none => ⟨.error ("Student " ++ student_id ++ " not found"), [], db⟩
  | some student =>
      let core := cascadeCore db student_id student
      let committed := core.1.committed
      let stats := core.2
      let result : List (String × SVal) :=
        [("message", .s "Student deleted successfully"),
         ("studentId", .s student_id),
         ("studentName", .s (student.name.getD "Unknown")),
         ("cascadingUpdates", .obj
           [("companiesAffected", .n stats.companiesAffected),
            ("roundsDeleted", .n stats.roundsDeleted),
            ("placementsDeleted", .n stats.placementsDeleted),
            ("yearsAffected", .n stats.yearsAffected.length)])]
      ⟨.ok result, committed, applyBatches now db committed⟩

/-- Observation: the `totalApplied` counter of a Company-Year document. -/
def compApplied (db : DB) (cid : String) : Option Int :=
  (lookupA cid db.companies).map Company.totalApplied

/-- Observation: the `totalPlaced` counter of a Company-Year document. -/
def compPlaced (db : DB) (cid : String) : Option Int :=
  (lookupA cid db.companies).map Company.totalPlaced

/-- Observation: whether the placement document of a student exists under a
Company-Year document. -/
def compHasPlacement (db : DB) (cid sid : String) : Option Bool :=
  (lookupA cid db.companies).map fun c => decide (sid ∈ c.placements)

/-- Observation: the `totalStudentsParticipated` counter of a Year document. -/
def yearTSP (db : DB) (y : Nat) : Option Int :=
  (lookupA y db.years).map YearDoc.totalStudentsParticipated

/-- Observation: the `totalPlaced` counter of a Year document. -/
def yearTP (db : DB) (y : Nat) : Option Int :=
  (lookupA y db.years).map YearDoc.totalPlaced

/-- Observation: the `placed` value of one `companyWise` entry, a missing
entry reading as 0 (the base the Firestore nested increment works from). -/
def cwPlacedVal (cw : List (String × CWEntry)) (cid : String) : Int :=
  ((lookupA cid cw).map CWEntry.placed).getD 0

/-- Observation: the `companyWise.<cid>.placed` value of a Year document. -/
def yearCWPlaced (db : DB) (y : Nat) (cid : String) : Option Int :=
  (lookupA y db.years).map fun yd => cwPlacedVal yd.companyWise cid

/-- Observation: the student document stored under an id. -/
def studLookup (db : DB) (sid : String) : Option Student :=
  lookupA sid db.students

/-- The affected-year set a full pass over the `companyStatus` map builds. -/
def affectedYears (cs : List (String × CompanyInfo)) : List Nat :=
  cs.foldl (fun ys p => addYear ys p.2.year) []

/-- The round-data deletions one company contributes, in round order. -/
def roundOps (sid cid : String) (rounds : List Round) : List WriteOp :=
  rounds.filterMap fun rd =>
    (matchedRow sid rd).map fun row => WriteOp.deleteRoundData cid rd.id row.id

/-- The rounds of a company as the cascade reads them. -/
def roundsOf (db : DB) (cid : String) : List Round :=
  ((lookupA cid db.companies).map Company.rounds).getD []

/-- All operations one `companyStatus` entry enqueues, in enqueue order. -/
def companyOps (db : DB) (sid : String) (entry : String × CompanyInfo) :
    List WriteOp :=
  (if entry.2.finalSelection then [WriteOp.deletePlacement entry.1 sid] else [])
  ++ roundOps sid entry.1 (roundsOf db entry.1)
  ++ [WriteOp.updateCompany entry.1 entry.2.finalSelection]

/-- Every operation a successful cascade enqueues before the duplicate
deletion batch of step 5, in enqueue order. -/
def plannedOps (db : DB) (sid : String) (cs : List (String × CompanyInfo)) :
    List WriteOp :=
  (cs.map (companyOps db sid)).flatten
  ++ (affectedYears cs).map (fun y => WriteOp.updateYear y (placedCompaniesInYear cs y))
  ++ [WriteOp.deleteStudent sid]

/-- The full sequence of operations a batch state has seen: committed batches
in order followed by the pending batch. -/
def ledger (st : BState) : List WriteOp :=
  st.committed.flatten ++ st.batch

/-- Structural invariant of the batch state: the running operation count is
the size of the pending batch. -/
def Good (st : BState) : Prop :=
  st.opCount = st.batch.length

/-- Recognizer: a placement deletion of the given student. -/
def isPlacementDelete (sid : String) : WriteOp → Bool
  | .deletePlacement _ s => s == sid
  | _ => false

/-- Recognizer: a counter update of the given Company-Year document. -/
def isCompanyUpdate (cid : String) : WriteOp → Bool
  | .updateCompany c _ => c == cid
  | _ => false

/-- Recognizer: a counter update of the given Company-Year document that also
decrements `totalPlaced`. -/
def isPlacedCompanyUpdate (cid : String) : WriteOp → Bool
  | .updateCompany c b => c == cid && b
  | _ => false

/-- Recognizer: an analytics update of the given Year document. -/
def isYearUpdate (y : Nat) : WriteOp → Bool
  | .updateYear y2 _ => y2 == y
  | _ => false

/-- Total `totalPlaced` decrement the operations apply to a Year document. -/
def yearTPDecs (y : Nat) (ops : List WriteOp) : Nat :=
  (ops.map fun op => match op with
    | .updateYear y2 cids => if y2 = y then cids.length else 0
    | _ => 0).sum

/-- Total `companyWise.<cid>.placed` decrement the operations apply to a Year
document. -/
def yearCWDecs (y : Nat) (cid : String) (ops : List WriteOp) : Nat :=
  (ops.map fun op => match op with
    | .updateYear y2 cids => if y2 = y then cids.count cid else 0
    | _ => 0).sum

/-- Number of rounds of one company holding a data row of the student (the
round-data deletions the company contributes). -/
def roundsMatched (db : DB) (sid : String) (entry : String × CompanyInfo) : Nat :=
  (roundsOf db entry.1).countP fun rd => (matchedRow sid rd).isSome

/-- Every key the response dictionary of the cascade carries, at the top level
and inside `cascadingUpdates`. -/
def allSummaryKeys (r : List (String × SVal)) : List String :=
  r.map Prod.fst ++
    (match lookupA "cascadingUpdates" r with
     | some (SVal.obj kvs) => kvs.map Prod.fst
     | _ => [])

/-- Concrete student used by the witnesses: placed at two companies across two
years, applied to a third. -/
def exampleStudent : Student :=
  ⟨some "Alice", some "placed", 2,
   [("c1", ⟨some 2025, true⟩), ("c2", ⟨some 2025, false⟩), ("c3", ⟨some 2024, true⟩)]⟩

/-- Concrete store used by the witnesses. -/
def exampleDB : DB :=
  ⟨[("S", exampleStudent)],
   [("c1", ⟨10, 5, some "completed", some 2025, some "Acme", 3,
            [⟨"r1", [⟨"d1", "S"⟩, ⟨"d2", "T"⟩]⟩, ⟨"r2", [⟨"d3", "T"⟩]⟩],
            ["S", "T"]⟩),
    ("c2", ⟨7, 1, some "running", some 2025, some "Beta", 4,
            [⟨"r1", [⟨"d1", "S"⟩]⟩], []⟩),
    ("c3", ⟨3, 2, none, some 2024, none, 5, [], ["S"]⟩)],
   [(2025, ⟨100, 40, 12, [("c1", ⟨some "Acme", 5, none⟩)], 9⟩),
    (2024, ⟨80, 30, 10, [], 8⟩),
    (2026, ⟨50, 20, 5, [("c9", ⟨none, 1, none⟩)], 7⟩)]⟩

/-- Student of the overflow scenario: one applied-only company. -/
def overflowStudent : Student :=
  ⟨some "Bob", some "not_placed", 0, [("c1", ⟨some 2025, false⟩)]⟩

/-- Concrete store exhibiting an oversized committed batch: one company with
498 rounds each holding a data row of the student, so that after the 498
round-data deletions and the company update the count stands at 499, and the
unchecked year update and student deletion push the final committed batch to
501 operations. -/
def overflowDB : DB :=
  ⟨[("S", overflowStudent)],
   [("c1", ⟨600, 0, some "running", some 2025, some "Big", 1,
            List.replicate 498 ⟨"r", [⟨"d", "S"⟩]⟩, []⟩)],
   [(2025, ⟨100, 40, 12, [], 9⟩)]⟩

/-- The empty store. -/
def emptyDB : DB := ⟨[], [], []⟩

/-- A stats document with every counter zero and no timestamps, used by the
concrete witnesses. -/
def statsZero : StatsDoc := ⟨fun _ => 0, none, none⟩

/-- A stats document with every counter zero and a known `lastUpdated`
timestamp, used to exhibit the effect of a zero decrement. -/
def statsStamped : StatsDoc := ⟨fun _ => 0, some 5, none⟩

/-- A store holding only the 2026 Year document of `exampleDB`, used to
witness that the dashboard `latestYear` ignores everything else. -/
def dashOnlyDB : DB :=
  ⟨[], [], [(2026, ⟨50, 20, 5, [("c9", ⟨none, 1, none⟩)], 7⟩)]⟩

/-! Basic association-list lemmas. -/

theorem lookupA_updAssoc {α β : Type} [DecidableEq α] (l : List (α × β)) (k k2 : α)
    (f : β → β) :
    lookupA k2 (updAssoc l k f) =
      if k2 = k then (lookupA k2 l).map f else lookupA k2 l := by
  induction l with
  | nil => simp [lookupA, updAssoc]
  | cons p ps ih =>
      show lookupA k2 ((if p.1 = k then (p.1, f p.2) else p) :: updAssoc ps k f) = _
      by_cases hpk : p.1 = k
      · rw [if_pos hpk]
        show (if p.1 = k2 then some (f p.2) else lookupA k2 (updAssoc ps k f)) = _
        by_cases h2 : p.1 = k2
        · have hkk : k2 = k := by rw [← h2]; exact hpk
          rw [if_pos h2, if_pos hkk]
          simp [lookupA, h2]
        · rw [if_neg h2, ih]
          by_cases hk : k2 = k
          · rw [if_pos hk, if_pos hk]
            simp [lookupA, h2]
          · rw [if_neg hk, if_neg hk]
            simp [lookupA, h2]
      · rw [if_neg hpk]
        show (if p.1 = k2 then some p.2 else lookupA k2 (updAssoc ps k f)) = _
        by_cases h2 : p.1 = k2
        · have hk : ¬ k2 = k := by rw [← h2]; exact hpk
          rw [if_pos h2, if_neg hk]
          simp [lookupA, h2]
        · rw [if_neg h2, ih]
          by_cases hk : k2 = k
          · rw [if_pos hk, if_pos hk]
            simp [lookupA, h2]
          · rw [if_neg hk, if_neg hk]
            simp [lookupA, h2]

theorem lookupA_append {α β : Type} [DecidableEq α] (l l2 : List (α × β)) (k : α) :
    lookupA k (l ++ l2) =
      match lookupA k l with
      | some v => some v
      | none => lookupA k l2 := by
  induction l with
  | nil => simp [lookupA]
  | cons p ps ih =>
      by_cases h : p.1 = k <;> simp [lookupA, h, ih]

theorem lookupA_filter_self {α β : Type} [DecidableEq α] (l : List (α × β)) (k : α) :
    lookupA k (l.filter fun p => p.1 ≠ k) = none := by
  induction l with
  | nil => simp [lookupA]
  | cons p ps ih =>
      by_cases h : p.1 = k
      · simpa [List.filter, h] using ih
      · simpa [List.filter, h, lookupA] using ih

theorem lookupA_filter_none {α β : Type} [DecidableEq α] (l : List (α × β)) (k : α)
    (p : α × β → Bool) (h : lookupA k l = none) :
    lookupA k (l.filter p) = none := by
  induction l with
  | nil => simp [lookupA]
  | cons q qs ih =>
      simp only [lookupA] at h
      by_cases hq : q.1 = k
      · simp [hq] at h
      · cases hp : p q <;> simp [List.filter, hp, lookupA, hq, ih (by simpa [hq] using h)]

/-! Ledger and batch-state lemmas. -/

theorem ledger_enqueue (st : BState) (op : WriteOp) :
    ledger (enqueue st op) = ledger st ++ [op] := by
  simp [ledger, enqueue]

theorem ledger_commitBatch (st : BState) :
    ledger (commitBatch st) = ledger st := by
  simp [ledger, commitBatch]

theorem ledger_checkCommit (st : BState) :
    ledger (checkCommit st) = ledger st := by
  unfold checkCommit
  split
  · exact ledger_commitBatch st
  · rfl

theorem good_emptyBState : Good emptyBState := rfl

theorem good_enqueue (st : BState) (op : WriteOp) (h : Good st) :
    Good (enqueue st op) := by
  simp [Good, enqueue] at *
  omega

theorem good_commitBatch (st : BState) : Good (commitBatch st) := rfl

theorem good_checkCommit (st : BState) (h : Good st) : Good (checkCommit st) := by
  unfold checkCommit
  split
  · exact good_commitBatch st
  · exact h

/-! Fold specifications of the cascade loops: the operation ledger each loop
appends, and the statistics it accumulates. -/

theorem processRound_spec (sid cid : String) (acc : BState × CascadeStats) (rd : Round) :
    ledger (processRound sid cid acc rd).1 = ledger acc.1 ++ roundOps sid cid [rd]
    ∧ (processRound sid cid acc rd).2.roundsDeleted =
        acc.2.roundsDeleted + (if (matchedRow sid rd).isSome then 1 else 0)
    ∧ (processRound sid cid acc rd).2.companiesAffected = acc.2.companiesAffected
    ∧ (processRound sid cid acc rd).2.placementsDeleted = acc.2.placementsDeleted
    ∧ (processRound sid cid acc rd).2.yearsAffected = acc.2.yearsAffected
    ∧ (processRound sid cid acc rd).2.totalOffers = acc.2.totalOffers := by
  unfold processRound
  cases h : matchedRow sid rd with
  | none => simp [roundOps, List.filterMap_cons, h]
  | some row =>
      simp [roundOps, List.filterMap_cons, h, ledger_checkCommit, ledger_enqueue]

theorem roundsFold_spec (sid cid : String) (rounds : List Round)
    (acc : BState × CascadeStats) :
    ledger (rounds.foldl (processRound sid cid) acc).1 =
        ledger acc.1 ++ roundOps sid cid rounds
    ∧ (rounds.foldl (processRound sid cid) acc).2.roundsDeleted =
        acc.2.roundsDeleted + rounds.countP (fun rd => (matchedRow sid rd).isSome)
    ∧ (rounds.foldl (processRound sid cid) acc).2.companiesAffected =
        acc.2.companiesAffected
    ∧ (rounds.foldl (processRound sid cid) acc).2.placementsDeleted =
        acc.2.placementsDeleted
    ∧ (rounds.foldl (processRound sid cid) acc).2.yearsAffected = acc.2.yearsAffected
    ∧ (rounds.foldl (processRound sid cid) acc).2.totalOffers = acc.2.totalOffers := by
  induction rounds generalizing acc with
  | nil => simp [roundOps]
  | cons rd rds ih =>
      obtain ⟨h1, h2, h3, h4, h5, h6⟩ := processRound_spec sid cid acc rd
      obtain ⟨i1, i2, i3, i4, i5, i6⟩ := ih (processRound sid cid acc rd)
      refine ⟨?_, ?_, ?_, ?_, ?_, ?_⟩
      · rw [List.foldl_cons, i1, h1]
        simp [roundOps, List.filterMap_cons]
        cases matchedRow sid rd <;> simp
      · rw [List.foldl_cons, i2, h2, List.countP_cons]
        cases h : matchedRow sid rd <;> simp [h] <;> omega
      · rw [List.foldl_cons, i3, h3]
      · rw [List.foldl_cons, i4, h4]
      · rw [List.foldl_cons, i5, h5]
      · rw [List.foldl_cons, i6, h6]

theorem processCompany_spec (db : DB) (sid : String) (acc : BState × CascadeStats)
    (entry : String × CompanyInfo) :
    ledger (processCompany db sid acc entry).1 = ledger acc.1 ++ companyOps db sid entry
    ∧ (processCompany db sid acc entry).2.companiesAffected =
        acc.2.companiesAffected + 1
    ∧ (processCompany db sid acc entry).2.roundsDeleted =
        acc.2.roundsDeleted + roundsMatched db sid entry
    ∧ (processCompany db sid acc entry).2.placementsDeleted =
        acc.2.placementsDeleted + (if entry.2.finalSelection then 1 else 0)
    ∧ (processCompany db sid acc entry).2.yearsAffected =
        addYear acc.2.yearsAffected entry.2.year
    ∧ (processCompany db sid acc entry).2.totalOffers = acc.2.totalOffers := by
  unfold processCompany
  cases hp : entry.2.finalSelection with
  | false =>
      simp only [hp, Bool.false_eq_true, if_false]
      obtain ⟨i1, i2, i3, i4, i5, i6⟩ :=
        roundsFold_spec sid entry.1 (((lookupA entry.1 db.companies).map Company.rounds).getD [])
          (acc.1,
           ⟨acc.2.companiesAffected + 1, acc.2.roundsDeleted, acc.2.placementsDeleted,
            addYear acc.2.yearsAffected entry.2.year, acc.2.totalOffers⟩)
      refine ⟨?_, ?_, ?_, ?_, ?_, ?_⟩
      · rw [ledger_checkCommit, ledger_enqueue, i1]
        simp [companyOps, hp, roundsOf]
      · simp [i3]
      · simp [i2, roundsMatched, roundsOf]
      · simp [i4, hp]
      · simp [i5]
      · simp [i6]
  | true =>
      simp only [hp, if_true]
      obtain ⟨i1, i2, i3, i4, i5, i6⟩ :=
        roundsFold_spec sid entry.1 (((lookupA entry.1 db.companies).map Company.rounds).getD [])
          (enqueue acc.1 (.deletePlacement entry.1 sid),
           ⟨acc.2.companiesAffected + 1, acc.2.roundsDeleted, acc.2.placementsDeleted + 1,
            addYear acc.2.yearsAffected entry.2.year, acc.2.totalOffers⟩)
      refine ⟨?_, ?_, ?_, ?_, ?_, ?_⟩
      · rw [ledger_checkCommit, ledger_enqueue, i1, ledger_enqueue]
        simp [companyOps, hp, roundsOf]
      · simp [i3]
      · simp [i2, roundsMatched, roundsOf]
      · simp [i4, hp]
      · simp [i5]
      · simp [i6]

theorem companiesFold_spec (db : DB) (sid : String)
    (cs : List (String × CompanyInfo)) (acc : BState × CascadeStats) :
    ledger (cs.foldl (processCompany db sid) acc).1 =
        ledger acc.1 ++ (cs.map (companyOps db sid)).flatten
    ∧ (cs.foldl (processCompany db sid) acc).2.companiesAffected =
        acc.2.companiesAffected + cs.length
    ∧ (cs.foldl (processCompany db sid) acc).2.roundsDeleted =
        acc.2.roundsDeleted + (cs.map (roundsMatched db sid)).sum
    ∧ (cs.foldl (processCompany db sid) acc).2.placementsDeleted =
        acc.2.placementsDeleted + cs.countP (fun p => p.2.finalSelection)
    ∧ (cs.foldl (processCompany db sid) acc).2.yearsAffected =
        cs.foldl (fun ys p => addYear ys p.2.year) acc.2.yearsAffected
    ∧ (cs.foldl (processCompany db sid) acc).2.totalOffers = acc.2.totalOffers := by
  induction cs generalizing acc with
  | nil => simp
  | cons e es ih =>
      obtain ⟨h1, h2, h3, h4, h5, h6⟩ := processCompany_spec db sid acc e
      obtain ⟨i1, i2, i3, i4, i5, i6⟩ := ih (processCompany db sid acc e)
      refine ⟨?_, ?_, ?_, ?_, ?_, ?_⟩
      · rw [List.foldl_cons, i1, h1]
        simp
      · rw [List.foldl_cons, i2, h2]
        simp [List.length_cons]
        omega
      · rw [List.foldl_cons, i3, h3]
        simp
        omega
      · rw [List.foldl_cons, i4, h4, List.countP_cons]
        cases hp : e.2.finalSelection <;> simp [hp] <;> omega
      · rw [List.foldl_cons, i5, h5, List.foldl_cons]
      · rw [List.foldl_cons, i6, h6]

theorem yearsFold_ledger (cs : List (String × CompanyInfo)) (ys : List Nat)
    (st : BState) :
    ledger (ys.foldl (fun st y =>
        enqueue st (.updateYear y (placedCompaniesInYear cs y))) st) =
      ledger st ++ ys.map (fun y => WriteOp.updateYear y (placedCompaniesInYear cs y)) := by
  induction ys generalizing st with
  | nil => simp
  | cons y ys ih =>
      rw [List.foldl_cons, ih, ledger_enqueue]
      simp

theorem flush_committed (st : BState) (h : st.opCount > 0) :
    (if st.opCount > 0 then commitBatch st else st).committed.flatten = ledger st
    ∧ (if st.opCount > 0 then commitBatch st else st).batch = [] := by
  rw [if_pos h]
  constructor
  · show (st.committed ++ [st.batch]).flatten = _
    simp [ledger]
  · rfl

theorem cascadeStats_eta (s : CascadeStats) :
    s = ⟨s.companiesAffected, s.roundsDeleted, s.placementsDeleted,
         s.yearsAffected, s.totalOffers⟩ := rfl

theorem cascadeCore_ledger (db : DB) (sid : String) (stu : Student) :
    (cascadeCore db sid stu).1.committed.flatten = plannedOps db sid stu.companyStatus
    ∧ (cascadeCore db sid stu).1.batch = [] := by
  obtain ⟨h1, _, _, _, h5, _⟩ :=
    companiesFold_spec db sid stu.companyStatus (emptyBState, ⟨0, 0, 0, [], stu.totalOffers⟩)
  have key := flush_committed
    (enqueue ((stu.companyStatus.foldl (processCompany db sid)
        (emptyBState, ⟨0, 0, 0, [], stu.totalOffers⟩)).2.yearsAffected.foldl
        (fun st y => enqueue st (.updateYear y (placedCompaniesInYear stu.companyStatus y)))
        (stu.companyStatus.foldl (processCompany db sid)
          (emptyBState, ⟨0, 0, 0, [], stu.totalOffers⟩)).1)
      (.deleteStudent sid))
    (by simp [enqueue])
  have hled :
      ledger (enqueue ((stu.companyStatus.foldl (processCompany db sid)
          (emptyBState, ⟨0, 0, 0, [], stu.totalOffers⟩)).2.yearsAffected.foldl
          (fun st y => enqueue st (.updateYear y (placedCompaniesInYear stu.companyStatus y)))
          (stu.companyStatus.foldl (processCompany db sid)
            (emptyBState, ⟨0, 0, 0, [], stu.totalOffers⟩)).1)
        (.deleteStudent sid)) =
        plannedOps db sid stu.companyStatus := by
    rw [ledger_enqueue, yearsFold_ledger, h1]
    have hyears : (stu.companyStatus.foldl (processCompany db sid)
        (emptyBState, ⟨0, 0, 0, [], stu.totalOffers⟩)).2.yearsAffected =
          affectedYears stu.companyStatus := by
      rw [h5]
      rfl
    rw [hyears]
    simp [plannedOps, ledger, emptyBState]
  exact ⟨key.1.trans hled, key.2⟩

theorem cascadeCore_stats (db : DB) (sid : String) (stu : Student) :
    (cascadeCore db sid stu).2 =
      ⟨stu.companyStatus.length,
       (stu.companyStatus.map (roundsMatched db sid)).sum,
       stu.companyStatus.countP (fun p => p.2.finalSelection),
       affectedYears stu.companyStatus,
       stu.totalOffers⟩ := by
  obtain ⟨_, h2, h3, h4, h5, h6⟩ :=
    companiesFold_spec db sid stu.companyStatus (emptyBState, ⟨0, 0, 0, [], stu.totalOffers⟩)
  have e2 : (cascadeCore db sid stu).2.companiesAffected = stu.companyStatus.length := by
    simpa using h2
  have e3 : (cascadeCore db sid stu).2.roundsDeleted =
      (stu.companyStatus.map (roundsMatched db sid)).sum := by
    simpa using h3
  have e4 : (cascadeCore db sid stu).2.placementsDeleted =
      stu.companyStatus.countP (fun p => p.2.finalSelection) := by
    simpa using h4
  have e5 : (cascadeCore db sid stu).2.yearsAffected = affectedYears stu.companyStatus := by
    rw [show (cascadeCore db sid stu).2.yearsAffected =
      (stu.companyStatus.foldl (processCompany db sid)
        (emptyBState, ⟨0, 0, 0, [], stu.totalOffers⟩)).2.yearsAffected from rfl, h5]
    rfl
  have e6 : (cascadeCore db sid stu).2.totalOffers = stu.totalOffers := by
    simpa using h6
  refine (cascadeStats_eta _).trans ?_
  rw [e2, e3, e4, e5, e6]

theorem applyBatches_eq (now : Nat) (db : DB) (batches : List (List WriteOp)) :
    applyBatches now db batches = batches.flatten.foldl (applyOp now) db := by
  induction batches generalizing db with
  | nil => rfl
  | cons b bs ih =>
      show applyBatches now (b.foldl (applyOp now) db) bs = _
      rw [ih, List.flatten_cons, List.foldl_append]

theorem cascade_committed (db : DB) (sid : String) (stu : Student) (now : Nat)
    (h : lookupA sid db.students = some stu) :
    (delete_student_cascade db sid now).committed.flatten =
      plannedOps db sid stu.companyStatus ++ [WriteOp.deleteStudent sid] := by
  obtain ⟨c1, _⟩ := cascadeCore_ledger db sid stu
  unfold delete_student_cascade
  rw [h]
  show ((cascadeCore db sid stu).1.committed ++ [[WriteOp.deleteStudent sid]]).flatten = _
  rw [List.flatten_append, c1]
  simp

theorem cascade_db_eq (db : DB) (sid : String) (stu : Student) (now : Nat)
    (h : lookupA sid db.students = some stu) :
    (delete_student_cascade db sid now).db =
      ((plannedOps db sid stu.companyStatus)
        ++ [WriteOp.deleteStudent sid]).foldl (applyOp now) db := by
  have hdb : (delete_student_cascade db sid now).db =
      applyBatches now db (delete_student_cascade db sid now).committed := by
    unfold delete_student_cascade
    rw [h]
  rw [hdb, applyBatches_eq, cascade_committed db sid stu now h]

theorem cascade_once_db_eq (db : DB) (sid : String) (stu : Student) (now : Nat)
    (h : lookupA sid db.students = some stu) :
    (delete_student_cascade_once db sid now).db =
      (plannedOps db sid stu.companyStatus).foldl (applyOp now) db := by
  obtain ⟨c1, _⟩ := cascadeCore_ledger db sid stu
  have hdb : (delete_student_cascade_once db sid now).db =
      applyBatches now db (cascadeCore db sid stu).1.committed := by
    unfold delete_student_cascade_once
    rw [h]
  rw [hdb, applyBatches_eq, c1]

theorem cascade_result_eq (db : DB) (sid : String) (stu : Student) (now : Nat)
    (h : lookupA sid db.students = some stu) :
    (delete_student_cascade db sid now).result =
      .ok [("message", .s "Student deleted successfully"),
           ("studentId", .s sid),
           ("studentName", .s (stu.name.getD "Unknown")),
           ("cascadingUpdates", .obj
             [("companiesAffected", .n stu.companyStatus.length),
              ("roundsDeleted", .n (stu.companyStatus.map (roundsMatched db sid)).sum),
              ("placementsDeleted", .n (stu.companyStatus.countP (fun p => p.2.finalSelection))),
              ("yearsAffected", .n (affectedYears stu.companyStatus).length)])] := by
  have hres : (delete_student_cascade db sid now).result =
      .ok [("message", .s "Student deleted successfully"),
           ("studentId", .s sid),
           ("studentName", .s (stu.name.getD "Unknown")),
           ("cascadingUpdates", .obj
             [("companiesAffected", .n (cascadeCore db sid stu).2.companiesAffected),
              ("roundsDeleted", .n (cascadeCore db sid stu).2.roundsDeleted),
              ("placementsDeleted", .n (cascadeCore db sid stu).2.placementsDeleted),
              ("yearsAffected", .n (cascadeCore db sid stu).2.yearsAffected.length)])] := by
    unfold delete_student_cascade
    rw [h]
  rw [hres, cascadeCore_stats]

theorem deleteStudent_idem (now : Nat) (db : DB) (sid : String) :
    applyOp now (applyOp now db (.deleteStudent sid)) (.deleteStudent sid) =
      applyOp now db (.deleteStudent sid) := by
  simp [applyOp, List.filter_filter]

/-! Effect of single operations and of operation sequences on the store
observations. -/

theorem compApplied_applyOp (now : Nat) (db : DB) (op : WriteOp) (cid : String) :
    compApplied (applyOp now db op) cid =
      if isCompanyUpdate cid op then (compApplied db cid).map (· - 1)
      else compApplied db cid := by
  cases op with
  | deletePlacement c s =>
      simp only [applyOp, compApplied, isCompanyUpdate, lookupA_updAssoc]
      split
      · cases lookupA cid db.companies <;> rfl
      · rfl
  | deleteRoundData c r d =>
      simp only [applyOp, compApplied, isCompanyUpdate, lookupA_updAssoc]
      split
      · cases lookupA cid db.companies <;> rfl
      · rfl
  | updateCompany c b =>
      simp only [applyOp, compApplied, isCompanyUpdate, lookupA_updAssoc, beq_iff_eq]
      by_cases hc : cid = c
      · subst hc
        simp only [if_pos rfl]
        cases lookupA cid db.companies <;> rfl
      · rw [if_neg hc, if_neg (fun hh => hc hh.symm)]
  | updateYear y cids => rfl
  | deleteStudent s => rfl

theorem compApplied_foldl (now : Nat) (ops : List WriteOp) (db : DB) (cid : String) :
    compApplied (ops.foldl (applyOp now) db) cid =
      (compApplied db cid).map
        (fun v => v - (ops.countP (isCompanyUpdate cid) : Int)) := by
  induction ops generalizing db with
  | nil =>
      cases h : compApplied db cid <;> simp [h]
  | cons op ops ih =>
      rw [List.foldl_cons, ih, compApplied_applyOp, List.countP_cons]
      by_cases hop : isCompanyUpdate cid op = true
      · rw [if_pos hop]
        simp only [hop]
        cases compApplied db cid <;> simp <;> omega
      · rw [if_neg hop]
        simp only [Bool.not_eq_true] at hop
        simp only [hop]
        cases compApplied db cid <;> simp

theorem compPlaced_applyOp (now : Nat) (db : DB) (op : WriteOp) (cid : String) :
    compPlaced (applyOp now db op) cid =
      if isPlacedCompanyUpdate cid op then (compPlaced db cid).map (· - 1)
      else compPlaced db cid := by
  cases op with
  | deletePlacement c s =>
      simp only [applyOp, compPlaced, isPlacedCompanyUpdate, lookupA_updAssoc]
      split
      · cases lookupA cid db.companies <;> rfl
      · rfl
  | deleteRoundData c r d =>
      simp only [applyOp, compPlaced, isPlacedCompanyUpdate, lookupA_updAssoc]
      split
      · cases lookupA cid db.companies <;> rfl
      · rfl
  | updateCompany c b =>
      simp only [applyOp, compPlaced, isPlacedCompanyUpdate, lookupA_updAssoc]
      by_cases hc : cid = c
      · subst hc
        rw [if_pos rfl]
        cases b with
        | true =>
            rw [if_pos (by simp)]
            cases h : lookupA cid db.companies <;> simp
        | false =>
            rw [if_neg (by simp)]
            cases h : lookupA cid db.companies <;> simp
      · have hcond : ¬ ((c == cid && b) = true) := by
          intro hcontra
          rw [Bool.and_eq_true, beq_iff_eq] at hcontra
          exact hc hcontra.1.symm
        rw [if_neg hc, if_neg hcond]
  | updateYear y cids => rfl
  | deleteStudent s => rfl

theorem compPlaced_foldl (now : Nat) (ops : List WriteOp) (db : DB) (cid : String) :
    compPlaced (ops.foldl (applyOp now) db) cid =
      (compPlaced db cid).map
        (fun v => v - (ops.countP (isPlacedCompanyUpdate cid) : Int)) := by
  induction ops generalizing db with
  | nil =>
      cases h : compPlaced db cid <;> simp [h]
  | cons op ops ih =>
      rw [List.foldl_cons, ih, compPlaced_applyOp, List.countP_cons]
      by_cases hop : isPlacedCompanyUpdate cid op = true
      · rw [if_pos hop]
        simp only [hop]
        cases compPlaced db cid <;> simp <;> omega
      · rw [if_neg hop]
        simp only [Bool.not_eq_true] at hop
        simp only [hop]
        cases compPlaced db cid <;> simp

theorem cwPlacedVal_cwDec (cw : List (String × CWEntry)) (cid cid2 : String) :
    cwPlacedVal (cwDec cw cid2) cid =
      if cid2 = cid then cwPlacedVal cw cid - 1 else cwPlacedVal cw cid := by
  by_cases hc : cid2 = cid
  · subst hc
    rw [if_pos rfl]
    unfold cwDec cwPlacedVal
    by_cases hs : (lookupA cid2 cw).isSome
    · rw [if_pos hs, lookupA_updAssoc, if_pos rfl]
      cases h : lookupA cid2 cw with
      | none => rw [h] at hs; simp at hs
      | some e => simp [h]
    · rw [if_neg hs, lookupA_append]
      cases h : lookupA cid2 cw with
      | some e => rw [h] at hs; simp at hs
      | none => simp [h, lookupA]
  · rw [if_neg hc]
    unfold cwDec cwPlacedVal
    by_cases hs : (lookupA cid2 cw).isSome
    · rw [if_pos hs, lookupA_updAssoc, if_neg (fun hh => hc hh.symm)]
    · rw [if_neg hs, lookupA_append]
      cases h : lookupA cid cw with
      | some e => simp [h]
      | none => simp [h, lookupA, hc]

theorem cwPlacedVal_foldl (cids : List String) (cw : List (String × CWEntry))
    (cid : String) :
    cwPlacedVal (cids.foldl cwDec cw) cid =
      cwPlacedVal cw cid - (cids.count cid : Int) := by
  induction cids generalizing cw with
  | nil => simp
  | cons c cs ih =>
      rw [List.foldl_cons, ih, cwPlacedVal_cwDec, List.count_cons]
      by_cases hc : c = cid
      · rw [if_pos hc]
        simp [hc]
        omega
      · rw [if_neg hc]
        simp [hc]

theorem yearTSP_applyOp (now : Nat) (db : DB) (op : WriteOp) (y : Nat) :
    yearTSP (applyOp now db op) y =
      if isYearUpdate y op then (yearTSP db y).map (· - 1)
      else yearTSP db y := by
  cases op with
  | deletePlacement c s => rfl
  | deleteRoundData c r d => rfl
  | updateCompany c b => rfl
  | updateYear y2 cids =>
      simp only [applyOp, yearTSP, isYearUpdate, lookupA_updAssoc, beq_iff_eq]
      by_cases hy : y = y2
      · subst hy
        simp only [if_pos rfl]
        cases h : lookupA y db.years <;> rfl
      · rw [if_neg hy, if_neg (fun hh => hy hh.symm)]
  | deleteStudent s => rfl

theorem yearTSP_foldl (now : Nat) (ops : List WriteOp) (db : DB) (y : Nat) :
    yearTSP (ops.foldl (applyOp now) db) y =
      (yearTSP db y).map (fun v => v - (ops.countP (isYearUpdate y) : Int)) := by
  induction ops generalizing db with
  | nil => cases h : yearTSP db y <;> simp [h]
  | cons op ops ih =>
      rw [List.foldl_cons, ih, yearTSP_applyOp, List.countP_cons]
      by_cases hop : isYearUpdate y op = true
      · rw [if_pos hop]
        simp only [hop]
        cases h : yearTSP db y <;> simp [h]
        omega
      · rw [if_neg hop]
        simp only [Bool.not_eq_true] at hop
        simp only [hop]
        cases h : yearTSP db y <;> simp [h]

theorem yearTP_applyOp (now : Nat) (db : DB) (op : WriteOp) (y : Nat) :
    yearTP (applyOp now db op) y =
      (yearTP db y).map (fun v => v - (yearTPDecs y [op] : Int)) := by
  cases op with
  | deletePlacement c s => cases h : yearTP db y <;> simp [applyOp, yearTP, yearTPDecs, h] <;> simp [yearTP] at h <;> simp [h]
  | deleteRoundData c r d => cases h : yearTP db y <;> simp [applyOp, yearTP, yearTPDecs, h] <;> simp [yearTP] at h <;> simp [h]
  | updateCompany c b => cases h : yearTP db y <;> simp [applyOp, yearTP, yearTPDecs, h] <;> simp [yearTP] at h <;> simp [h]
  | updateYear y2 cids =>
      simp only [applyOp, yearTP, yearTPDecs, lookupA_updAssoc, List.map_cons,
        List.map_nil, List.sum_cons, List.sum_nil]
      by_cases hy : y = y2
      · subst hy
        simp only [if_pos rfl]
        cases h : lookupA y db.years with
        | none => rfl
        | some yd =>
            by_cases hlen : cids.length > 0
            · simp [if_pos hlen]
            · simp at hlen
              simp [hlen]
      · rw [if_neg hy]
        have hz : (if y2 = y then cids.length else 0) = 0 :=
          if_neg (fun hh => hy hh.symm)
        rw [hz]
        cases h : lookupA y db.years <;> simp
  | deleteStudent s => cases h : yearTP db y <;> simp [applyOp, yearTP, yearTPDecs, h] <;> simp [yearTP] at h <;> simp [h]

theorem yearTP_foldl (now : Nat) (ops : List WriteOp) (db : DB) (y : Nat) :
    yearTP (ops.foldl (applyOp now) db) y =
      (yearTP db y).map (fun v => v - (yearTPDecs y ops : Int)) := by
  induction ops generalizing db with
  | nil => cases h : yearTP db y <;> simp [h, yearTPDecs]
  | cons op ops ih =>
      rw [List.foldl_cons, ih, yearTP_applyOp]
      cases h : yearTP db y with
      | none => rfl
      | some v =>
          simp [yearTPDecs, h]
          omega

theorem yearCWPlaced_applyOp (now : Nat) (db : DB) (op : WriteOp) (y : Nat)
    (cid : String) :
    yearCWPlaced (applyOp now db op) y cid =
      (yearCWPlaced db y cid).map (fun v => v - (yearCWDecs y cid [op] : Int)) := by
  cases op with
  | deletePlacement c s => cases h : yearCWPlaced db y cid <;> simp [applyOp, yearCWPlaced, yearCWDecs, h] <;> simp [yearCWPlaced] at h <;> simp [h]
  | deleteRoundData c r d => cases h : yearCWPlaced db y cid <;> simp [applyOp, yearCWPlaced, yearCWDecs, h] <;> simp [yearCWPlaced] at h <;> simp [h]
  | updateCompany c b => cases h : yearCWPlaced db y cid <;> simp [applyOp, yearCWPlaced, yearCWDecs, h] <;> simp [yearCWPlaced] at h <;> simp [h]
  | updateYear y2 cids =>
      simp only [applyOp, yearCWPlaced, yearCWDecs, lookupA_updAssoc, List.map_cons,
        List.map_nil, List.sum_cons, List.sum_nil]
      by_cases hy : y = y2
      · subst hy
        simp only [if_pos rfl]
        cases h : lookupA y db.years with
        | none => rfl
        | some yd => simp [cwPlacedVal_foldl]
      · rw [if_neg hy, if_neg (fun hh => hy hh.symm)]
        cases h : lookupA y db.years <;> simp
  | deleteStudent s => cases h : yearCWPlaced db y cid <;> simp [applyOp, yearCWPlaced, yearCWDecs, h] <;> simp [yearCWPlaced] at h <;> simp [h]

theorem yearCWPlaced_foldl (now : Nat) (ops : List WriteOp) (db : DB) (y : Nat)
    (cid : String) :
    yearCWPlaced (ops.foldl (applyOp now) db) y cid =
      (yearCWPlaced db y cid).map (fun v => v - (yearCWDecs y cid ops : Int)) := by
  induction ops generalizing db with
  | nil => cases h : yearCWPlaced db y cid <;> simp [h, yearCWDecs]
  | cons op ops ih =>
      rw [List.foldl_cons, ih, yearCWPlaced_applyOp]
      cases h : yearCWPlaced db y cid with
      | none => rfl
      | some v =>
          simp [yearCWDecs, h]
          omega

theorem studLookup_none_applyOp (now : Nat) (db : DB) (op : WriteOp) (sid : String)
    (h : studLookup db sid = none) :
    studLookup (applyOp now db op) sid = none := by
  cases op with
  | deletePlacement c s => exact h
  | deleteRoundData c r d => exact h
  | updateCompany c b => exact h
  | updateYear y cids => exact h
  | deleteStudent s =>
      exact lookupA_filter_none db.students sid _ h

theorem studLookup_foldl_none_of_none (now : Nat) (ops : List WriteOp) (db : DB)
    (sid : String) (h : studLookup db sid = none) :
    studLookup (ops.foldl (applyOp now) db) sid = none := by
  induction ops generalizing db with
  | nil => exact h
  | cons op ops ih =>
      rw [List.foldl_cons]
      exact ih _ (studLookup_none_applyOp now db op sid h)

theorem studLookup_del_self (now : Nat) (db : DB) (sid : String) :
    studLookup (applyOp now db (.deleteStudent sid)) sid = none := by
  show lookupA sid (db.students.filter _) = none
  exact lookupA_filter_self db.students sid

theorem studLookup_foldl_none (now : Nat) (ops : List WriteOp) (db : DB)
    (sid : String) (hmem : WriteOp.deleteStudent sid ∈ ops) :
    studLookup (ops.foldl (applyOp now) db) sid = none := by
  induction ops generalizing db with
  | nil => cases hmem
  | cons op ops ih =>
      rw [List.foldl_cons]
      rcases List.mem_cons.mp hmem with h | h
      · subst h
        exact studLookup_foldl_none_of_none now ops _ sid (studLookup_del_self now db sid)
      · exact ih _ h

theorem hasPlacement_ne_true_applyOp (now : Nat) (db : DB) (op : WriteOp)
    (cid sid : String) (h : compHasPlacement db cid sid ≠ some true) :
    compHasPlacement (applyOp now db op) cid sid ≠ some true := by
  cases op with
  | deletePlacement c s =>
      simp only [applyOp, compHasPlacement, lookupA_updAssoc]
      by_cases hc : cid = c
      · rw [if_pos hc]
        cases hq : lookupA cid db.companies with
        | none => simp
        | some comp =>
            have hdb : sid ∉ comp.placements := by
              intro hmem2
              exact h (by simp [compHasPlacement, hq, hmem2])
            intro hcontra
            simp at hcontra
            exact hdb hcontra.1
      · rw [if_neg hc]
        exact h
  | deleteRoundData c r d =>
      simp only [applyOp, compHasPlacement, lookupA_updAssoc]
      by_cases hc : cid = c
      · rw [if_pos hc]
        cases hq : lookupA cid db.companies with
        | none => simp
        | some comp =>
            intro hcontra
            apply h
            simp only [compHasPlacement, hq]
            simpa using hcontra
      · rw [if_neg hc]
        exact h
  | updateCompany c b =>
      simp only [applyOp, compHasPlacement, lookupA_updAssoc]
      by_cases hc : cid = c
      · rw [if_pos hc]
        cases hq : lookupA cid db.companies with
        | none => simp
        | some comp =>
            intro hcontra
            apply h
            simp only [compHasPlacement, hq]
            simpa using hcontra
      · rw [if_neg hc]
        exact h
  | updateYear y cids => exact h
  | deleteStudent s => exact h

theorem hasPlacement_del_self (now : Nat) (db : DB) (cid sid : String) :
    compHasPlacement (applyOp now db (.deletePlacement cid sid)) cid sid ≠ some true := by
  simp only [applyOp, compHasPlacement, lookupA_updAssoc, if_pos rfl]
  cases hq : lookupA cid db.companies with
  | none => simp
  | some comp =>
      intro hcontra
      simp at hcontra

theorem hasPlacement_foldl_preserve (now : Nat) (ops : List WriteOp) (db : DB)
    (cid sid : String) (h : compHasPlacement db cid sid ≠ some true) :
    compHasPlacement (ops.foldl (applyOp now) db) cid sid ≠ some true := by
  induction ops generalizing db with
  | nil => exact h
  | cons op ops ih =>
      rw [List.foldl_cons]
      exact ih _ (hasPlacement_ne_true_applyOp now db op cid sid h)

theorem hasPlacement_foldl_ne_true (now : Nat) (ops : List WriteOp) (db : DB)
    (cid sid : String) (hmem : WriteOp.deletePlacement cid sid ∈ ops) :
    compHasPlacement (ops.foldl (applyOp now) db) cid sid ≠ some true := by
  induction ops generalizing db with
  | nil => cases hmem
  | cons op ops ih =>
      rw [List.foldl_cons]
      rcases List.mem_cons.mp hmem with h | h
      · subst h
        exact hasPlacement_foldl_preserve now ops _ cid sid
          (hasPlacement_del_self now db cid sid)
      · exact ih _ h

/-! Counting the operations of a planned cascade. -/

theorem sum_map_single_key (cs : List (String × CompanyInfo)) (cid : String)
    (info : CompanyInfo) (hnd : (cs.map Prod.fst).Nodup) (hm : (cid, info) ∈ cs)
    (f : String × CompanyInfo → Nat) (hf : ∀ q ∈ cs, q.1 ≠ cid → f q = 0) :
    (cs.map f).sum = f (cid, info) := by
  induction cs with
  | nil => cases hm
  | cons p ps ih =>
      simp only [List.map_cons, List.nodup_cons] at hnd
      rcases List.mem_cons.mp hm with h | h
      · subst h
        simp only [List.map_cons, List.sum_cons]
        have hzero : (ps.map f).sum = 0 := by
          apply List.sum_eq_zero
          intro x hx
          obtain ⟨q, hq, rfl⟩ := List.mem_map.mp hx
          apply hf q (List.mem_cons_of_mem _ hq)
          intro hqcid
          have hq1 : q.1 ∈ ps.map Prod.fst := List.mem_map_of_mem Prod.fst hq
          rw [hqcid] at hq1
          exact hnd.1 hq1
        rw [hzero]
        simp
      · have hcidmem : cid ∈ ps.map Prod.fst := List.mem_map_of_mem Prod.fst h
        have hp0 : f p = 0 := by
          apply hf p (List.mem_cons_self p ps)
          intro hpcid
          apply hnd.1
          rw [hpcid]
          exact hcidmem
        simp only [List.map_cons, List.sum_cons, hp0, Nat.zero_add]
        exact ih hnd.2 h (fun q hq hqc => hf q (List.mem_cons_of_mem _ hq) hqc)

theorem countP_single_key (cs : List (String × CompanyInfo)) (cid : String)
    (info : CompanyInfo) (hnd : (cs.map Prod.fst).Nodup) (hm : (cid, info) ∈ cs)
    (p : String × CompanyInfo → Bool) (hp : ∀ q ∈ cs, q.1 ≠ cid → p q = false) :
    cs.countP p = if p (cid, info) then 1 else 0 := by
  induction cs with
  | nil => cases hm
  | cons q qs ih =>
      simp only [List.map_cons, List.nodup_cons] at hnd
      rw [List.countP_cons]
      rcases List.mem_cons.mp hm with h | h
      · subst h
        have hzero : qs.countP p = 0 := by
          rw [List.countP_eq_zero]
          intro a ha hpa
          have ha1 : a.1 ∈ qs.map Prod.fst := List.mem_map_of_mem Prod.fst ha
          by_cases hac : a.1 = cid
          · rw [hac] at ha1
            exact hnd.1 ha1
          · rw [hp a (List.mem_cons_of_mem _ ha) hac] at hpa
            cases hpa
        rw [hzero]
        simp
      · have hcidmem : cid ∈ qs.map Prod.fst := List.mem_map_of_mem Prod.fst h
        have hq0 : p q = false := by
          apply hp q (List.mem_cons_self q qs)
          intro hqcid
          apply hnd.1
          rw [hqcid]
          exact hcidmem
        rw [hq0, ih hnd.2 h (fun r hr hrc => hp r (List.mem_cons_of_mem _ hr) hrc)]
        simp

theorem sum_map_single_nat (ys : List Nat) (y : Nat) (hnd : ys.Nodup) (hm : y ∈ ys)
    (g : Nat → Nat) (hg : ∀ y2 ∈ ys, y2 ≠ y → g y2 = 0) :
    (ys.map g).sum = g y := by
  induction ys with
  | nil => cases hm
  | cons z zs ih =>
      simp only [List.nodup_cons] at hnd
      rcases List.mem_cons.mp hm with h | h
      · subst h
        simp only [List.map_cons, List.sum_cons]
        have hzero : (zs.map g).sum = 0 := by
          apply List.sum_eq_zero
          intro x hx
          obtain ⟨y2, hy2, rfl⟩ := List.mem_map.mp hx
          exact hg y2 (List.mem_cons_of_mem _ hy2) (fun hc => hnd.1 (hc ▸ hy2))
        rw [hzero]
        simp
      · have hz0 : g z = 0 :=
          hg z (List.mem_cons_self z zs) (fun hc => hnd.1 (hc ▸ h))
        simp only [List.map_cons, List.sum_cons, hz0, Nat.zero_add]
        exact ih hnd.2 h (fun y2 hy2 hyy => hg y2 (List.mem_cons_of_mem _ hy2) hyy)

theorem countP_flatten_eq (p : WriteOp → Bool) (L : List (List WriteOp)) :
    L.flatten.countP p = (L.map (fun l => l.countP p)).sum := by
  induction L with
  | nil => rfl
  | cons l ls ih => simp [List.countP_append, ih]

theorem sum_indicator_eq_countP (cs : List (String × CompanyInfo))
    (p : String × CompanyInfo → Bool) :
    (cs.map (fun e => if p e then 1 else 0)).sum = cs.countP p := by
  induction cs with
  | nil => rfl
  | cons e es ih =>
      rw [List.map_cons, List.sum_cons, List.countP_cons, ih]
      by_cases h : p e <;> simp [h] <;> omega

theorem roundOps_shape (sid c : String) (rounds : List Round) (op : WriteOp)
    (h : op ∈ roundOps sid c rounds) :
    ∃ rid did, op = .deleteRoundData c rid did := by
  obtain ⟨rd, hrd, hop⟩ := List.mem_filterMap.mp h
  cases hm : matchedRow sid rd with
  | none => rw [hm] at hop; cases hop
  | some row =>
      rw [hm] at hop
      exact ⟨rd.id, row.id, by simpa using hop.symm⟩

theorem companyOps_shape (db : DB) (sid : String) (e : String × CompanyInfo)
    (op : WriteOp) (h : op ∈ companyOps db sid e) :
    op = .deletePlacement e.1 sid ∨ (∃ rid did, op = .deleteRoundData e.1 rid did)
    ∨ op = .updateCompany e.1 e.2.finalSelection := by
  unfold companyOps at h
  rcases List.mem_append.mp h with h2 | h2
  · rcases List.mem_append.mp h2 with h3 | h3
    · left
      cases hf : e.2.finalSelection
      · rw [hf] at h3; cases h3
      · rw [hf] at h3; simpa using h3
    · right; left
      exact roundOps_shape _ _ _ op h3
  · right; right
    simpa using h2

theorem companyOps_countP_companyUpdate (db : DB) (sid cid : String)
    (e : String × CompanyInfo) :
    (companyOps db sid e).countP (isCompanyUpdate cid) = if e.1 = cid then 1 else 0 := by
  unfold companyOps
  rw [List.countP_append, List.countP_append]
  have h1 : (if e.2.finalSelection then [WriteOp.deletePlacement e.1 sid]
      else []).countP (isCompanyUpdate cid) = 0 := by
    cases e.2.finalSelection <;> simp [isCompanyUpdate]
  have h2 : (roundOps sid e.1 (roundsOf db e.1)).countP (isCompanyUpdate cid) = 0 := by
    rw [List.countP_eq_zero]
    intro op hop htrue
    obtain ⟨rid, did, rfl⟩ := roundOps_shape _ _ _ op hop
    simp [isCompanyUpdate] at htrue
  have h3 : ([WriteOp.updateCompany e.1 e.2.finalSelection]).countP (isCompanyUpdate cid) =
      if e.1 = cid then 1 else 0 := by
    by_cases hc : e.1 = cid <;> simp [isCompanyUpdate, hc]
  rw [h1, h2, h3]
  simp

theorem companyOps_countP_placedUpdate (db : DB) (sid cid : String)
    (e : String × CompanyInfo) :
    (companyOps db sid e).countP (isPlacedCompanyUpdate cid) =
      if e.1 = cid then (if e.2.finalSelection then 1 else 0) else 0 := by
  unfold companyOps
  rw [List.countP_append, List.countP_append]
  have h1 : (if e.2.finalSelection then [WriteOp.deletePlacement e.1 sid]
      else []).countP (isPlacedCompanyUpdate cid) = 0 := by
    cases e.2.finalSelection <;> simp [isPlacedCompanyUpdate]
  have h2 : (roundOps sid e.1 (roundsOf db e.1)).countP (isPlacedCompanyUpdate cid) = 0 := by
    rw [List.countP_eq_zero]
    intro op hop htrue
    obtain ⟨rid, did, rfl⟩ := roundOps_shape _ _ _ op hop
    simp [isPlacedCompanyUpdate] at htrue
  have h3 : ([WriteOp.updateCompany e.1 e.2.finalSelection]).countP
      (isPlacedCompanyUpdate cid) =
      if e.1 = cid then (if e.2.finalSelection then 1 else 0) else 0 := by
    by_cases hc : e.1 = cid <;> cases hf : e.2.finalSelection <;>
      simp [isPlacedCompanyUpdate, hc, hf]
  rw [h1, h2, h3]
  simp

theorem companyOps_countP_placementDelete (db : DB) (sid : String)
    (e : String × CompanyInfo) :
    (companyOps db sid e).countP (isPlacementDelete sid) =
      if e.2.finalSelection then 1 else 0 := by
  unfold companyOps
  rw [List.countP_append, List.countP_append]
  have h1 : (if e.2.finalSelection then [WriteOp.deletePlacement e.1 sid]
      else []).countP (isPlacementDelete sid) = if e.2.finalSelection then 1 else 0 := by
    cases e.2.finalSelection <;> simp [isPlacementDelete]
  have h2 : (roundOps sid e.1 (roundsOf db e.1)).countP (isPlacementDelete sid) = 0 := by
    rw [List.countP_eq_zero]
    intro op hop htrue
    obtain ⟨rid, did, rfl⟩ := roundOps_shape _ _ _ op hop
    simp [isPlacementDelete] at htrue
  have h3 : ([WriteOp.updateCompany e.1 e.2.finalSelection]).countP
      (isPlacementDelete sid) = 0 := by
    simp [isPlacementDelete]
  rw [h1, h2, h3]
  simp

theorem companyOps_countP_yearUpdate (db : DB) (sid : String) (y : Nat)
    (e : String × CompanyInfo) :
    (companyOps db sid e).countP (isYearUpdate y) = 0 := by
  rw [List.countP_eq_zero]
  intro op hop htrue
  rcases companyOps_shape db sid e op hop with h | ⟨rid, did, h⟩ | h <;>
    subst h <;> simp [isYearUpdate] at htrue

theorem companyOps_yearTPDecs (db : DB) (sid : String) (y : Nat)
    (e : String × CompanyInfo) :
    yearTPDecs y (companyOps db sid e) = 0 := by
  unfold yearTPDecs
  apply List.sum_eq_zero
  intro x hx
  obtain ⟨op, hop, rfl⟩ := List.mem_map.mp hx
  rcases companyOps_shape db sid e op hop with h | ⟨rid, did, h⟩ | h <;> subst h <;> rfl

theorem companyOps_yearCWDecs (db : DB) (sid cid : String) (y : Nat)
    (e : String × CompanyInfo) :
    yearCWDecs y cid (companyOps db sid e) = 0 := by
  unfold yearCWDecs
  apply List.sum_eq_zero
  intro x hx
  obtain ⟨op, hop, rfl⟩ := List.mem_map.mp hx
  rcases companyOps_shape db sid e op hop with h | ⟨rid, did, h⟩ | h <;> subst h <;> rfl

theorem mem_addYear (ys : List Nat) (o : Option Nat) (y : Nat) :
    y ∈ addYear ys o ↔ y ∈ ys ∨ (o = some y ∧ y ≠ 0) := by
  cases o with
  | none => simp [addYear]
  | some z =>
      show y ∈ (if z ≠ 0 then (if z ∈ ys then ys else ys ++ [z]) else ys) ↔ _
      by_cases hz : z ≠ 0
      · rw [if_pos hz]
        by_cases hm : z ∈ ys
        · rw [if_pos hm]
          constructor
          · intro h; exact Or.inl h
          · rintro (h | ⟨hzy, hy0⟩)
            · exact h
            · rw [← Option.some_inj.mp hzy]; exact hm
        · rw [if_neg hm]
          rw [List.mem_append]
          constructor
          · rintro (h | h)
            · exact Or.inl h
            · simp at h
              exact Or.inr ⟨by rw [h], by rw [h]; exact hz⟩
          · rintro (h | ⟨hzy, hy0⟩)
            · exact Or.inl h
            · right
              simp [Option.some_inj.mp hzy]
      · rw [if_neg hz]
        simp only [ne_eq, Decidable.not_not] at hz
        subst hz
        constructor
        · intro h; exact Or.inl h
        · rintro (h | ⟨hzy, hy0⟩)
          · exact h
          · exact absurd (Option.some_inj.mp hzy).symm hy0

theorem addYear_nodup (ys : List Nat) (o : Option Nat) (h : ys.Nodup) :
    (addYear ys o).Nodup := by
  cases o with
  | none => exact h
  | some z =>
      show (if z ≠ 0 then (if z ∈ ys then ys else ys ++ [z]) else ys).Nodup
      by_cases hz : z ≠ 0
      · rw [if_pos hz]
        by_cases hm : z ∈ ys
        · rw [if_pos hm]; exact h
        · rw [if_neg hm]
          simp [List.nodup_append, h, hm]
      · rw [if_neg hz]; exact h

theorem mem_foldl_addYear (cs : List (String × CompanyInfo)) (init : List Nat)
    (y : Nat) :
    y ∈ cs.foldl (fun ys p => addYear ys p.2.year) init ↔
      y ∈ init ∨ ∃ p ∈ cs, p.2.year = some y ∧ y ≠ 0 := by
  induction cs generalizing init with
  | nil => simp
  | cons e es ih =>
      rw [List.foldl_cons, ih, mem_addYear]
      constructor
      · rintro ((h | h) | ⟨p, hp, hy⟩)
        · exact Or.inl h
        · exact Or.inr ⟨e, List.mem_cons_self e es, h⟩
        · exact Or.inr ⟨p, List.mem_cons_of_mem _ hp, hy⟩
      · rintro (h | ⟨p, hp, hy⟩)
        · exact Or.inl (Or.inl h)
        · rcases List.mem_cons.mp hp with hpe | hpe
          · subst hpe; exact Or.inl (Or.inr hy)
          · exact Or.inr ⟨p, hpe, hy⟩

theorem foldl_addYear_nodup (cs : List (String × CompanyInfo)) (init : List Nat)
    (h : init.Nodup) :
    (cs.foldl (fun ys p => addYear ys p.2.year) init).Nodup := by
  induction cs generalizing init with
  | nil => exact h
  | cons e es ih =>
      rw [List.foldl_cons]
      exact ih _ (addYear_nodup init e.2.year h)

theorem affectedYears_nodup (cs : List (String × CompanyInfo)) :
    (affectedYears cs).Nodup :=
  foldl_addYear_nodup cs [] List.nodup_nil

theorem mem_affectedYears (cs : List (String × CompanyInfo)) (y : Nat) :
    y ∈ affectedYears cs ↔ ∃ p ∈ cs, p.2.year = some y ∧ y ≠ 0 := by
  unfold affectedYears
  rw [mem_foldl_addYear]
  simp

theorem count_placedCompanies_eq_one (cs : List (String × CompanyInfo)) (y : Nat)
    (hnd : (cs.map Prod.fst).Nodup) (cid : String) (info : CompanyInfo)
    (hm : (cid, info) ∈ cs) (hy : info.year = some y) (hf : info.finalSelection = true) :
    (placedCompaniesInYear cs y).count cid = 1 := by
  unfold placedCompaniesInYear
  rw [show ∀ (l : List String), l.count cid = l.countP (· == cid) from fun _ => rfl]
  rw [List.countP_map, List.countP_filter]
  rw [countP_single_key cs cid info hnd hm _ (fun q hq hqc => by
    have : (q.1 == cid) = false := by simpa using hqc
    simp [Function.comp, this])]
  simp [Function.comp, hy, hf]

theorem yearTPDecs_append (y : Nat) (l1 l2 : List WriteOp) :
    yearTPDecs y (l1 ++ l2) = yearTPDecs y l1 + yearTPDecs y l2 := by
  simp [yearTPDecs]

theorem yearCWDecs_append (y : Nat) (cid : String) (l1 l2 : List WriteOp) :
    yearCWDecs y cid (l1 ++ l2) = yearCWDecs y cid l1 + yearCWDecs y cid l2 := by
  simp [yearCWDecs]

theorem yearTPDecs_flatten (y : Nat) (L : List (List WriteOp)) :
    yearTPDecs y L.flatten = (L.map (yearTPDecs y)).sum := by
  induction L with
  | nil => rfl
  | cons l ls ih => simp [List.flatten_cons, yearTPDecs_append, ih]

theorem yearCWDecs_flatten (y : Nat) (cid : String) (L : List (List WriteOp)) :
    yearCWDecs y cid L.flatten = (L.map (yearCWDecs y cid)).sum := by
  induction L with
  | nil => rfl
  | cons l ls ih => simp [List.flatten_cons, yearCWDecs_append, ih]

theorem allOps_countP_companyUpdate (db : DB) (sid : String)
    (cs : List (String × CompanyInfo)) (hnd : (cs.map Prod.fst).Nodup)
    (cid : String) (info : CompanyInfo) (hm : (cid, info) ∈ cs) :
    (plannedOps db sid cs ++ [WriteOp.deleteStudent sid]).countP
      (isCompanyUpdate cid) = 1 := by
  unfold plannedOps
  rw [List.countP_append, List.countP_append, List.countP_append, countP_flatten_eq]
  have hflat : ((cs.map (companyOps db sid)).map (fun l => l.countP (isCompanyUpdate cid))).sum = 1 := by
    rw [List.map_map]
    rw [sum_map_single_key cs cid info hnd hm _ (fun q hq hqc => by
      simp [Function.comp, companyOps_countP_companyUpdate, hqc])]
    simp [Function.comp, companyOps_countP_companyUpdate]
  have hyear : ((affectedYears cs).map
      (fun y => WriteOp.updateYear y (placedCompaniesInYear cs y))).countP
        (isCompanyUpdate cid) = 0 := by
    rw [List.countP_eq_zero]
    intro op hop htrue
    obtain ⟨y, hy, rfl⟩ := List.mem_map.mp hop
    simp [isCompanyUpdate] at htrue
  rw [hflat, hyear]
  simp [isCompanyUpdate]

theorem allOps_countP_placedUpdate (db : DB) (sid : String)
    (cs : List (String × CompanyInfo)) (hnd : (cs.map Prod.fst).Nodup)
    (cid : String) (info : CompanyInfo) (hm : (cid, info) ∈ cs) :
    (plannedOps db sid cs ++ [WriteOp.deleteStudent sid]).countP
      (isPlacedCompanyUpdate cid) = if info.finalSelection then 1 else 0 := by
  unfold plannedOps
  rw [List.countP_append, List.countP_append, List.countP_append, countP_flatten_eq]
  have hflat : ((cs.map (companyOps db sid)).map
      (fun l => l.countP (isPlacedCompanyUpdate cid))).sum =
      if info.finalSelection then 1 else 0 := by
    rw [List.map_map]
    rw [sum_map_single_key cs cid info hnd hm _ (fun q hq hqc => by
      simp [Function.comp, companyOps_countP_placedUpdate, hqc])]
    simp [Function.comp, companyOps_countP_placedUpdate]
  have hyear : ((affectedYears cs).map
      (fun y => WriteOp.updateYear y (placedCompaniesInYear cs y))).countP
        (isPlacedCompanyUpdate cid) = 0 := by
    rw [List.countP_eq_zero]
    intro op hop htrue
    obtain ⟨y, hy, rfl⟩ := List.mem_map.mp hop
    simp [isPlacedCompanyUpdate] at htrue
  rw [hflat, hyear]
  cases info.finalSelection <;> simp [isPlacedCompanyUpdate]

theorem allOps_countP_placementDelete (db : DB) (sid : String)
    (cs : List (String × CompanyInfo)) :
    (plannedOps db sid cs ++ [WriteOp.deleteStudent sid]).countP
      (isPlacementDelete sid) = cs.countP (fun p => p.2.finalSelection) := by
  unfold plannedOps
  rw [List.countP_append, List.countP_append, List.countP_append, countP_flatten_eq]
  have hflat : ((cs.map (companyOps db sid)).map
      (fun l => l.countP (isPlacementDelete sid))).sum =
      cs.countP (fun p => p.2.finalSelection) := by
    rw [List.map_map]
    rw [show (fun l => List.countP (isPlacementDelete sid) l) ∘ companyOps db sid =
      fun e => if e.2.finalSelection then 1 else 0 from ?_]
    · exact sum_indicator_eq_countP cs _
    · funext e
      exact companyOps_countP_placementDelete db sid e
  have hyear : ((affectedYears cs).map
      (fun y => WriteOp.updateYear y (placedCompaniesInYear cs y))).countP
        (isPlacementDelete sid) = 0 := by
    rw [List.countP_eq_zero]
    intro op hop htrue
    obtain ⟨y, hy, rfl⟩ := List.mem_map.mp hop
    simp [isPlacementDelete] at htrue
  rw [hflat, hyear]
  simp [isPlacementDelete]

theorem allOps_countP_yearUpdate (db : DB) (sid : String)
    (cs : List (String × CompanyInfo)) (y : Nat) (hy : y ∈ affectedYears cs) :
    (plannedOps db sid cs ++ [WriteOp.deleteStudent sid]).countP
      (isYearUpdate y) = 1 := by
  unfold plannedOps
  rw [List.countP_append, List.countP_append, List.countP_append, countP_flatten_eq]
  have hflat : ((cs.map (companyOps db sid)).map
      (fun l => l.countP (isYearUpdate y))).sum = 0 := by
    apply List.sum_eq_zero
    intro x hx
    obtain ⟨l2, hl2, rfl⟩ := List.mem_map.mp hx
    obtain ⟨e, he, rfl⟩ := List.mem_map.mp hl2
    exact companyOps_countP_yearUpdate db sid y e
  have hyear : ((affectedYears cs).map
      (fun y2 => WriteOp.updateYear y2 (placedCompaniesInYear cs y2))).countP
        (isYearUpdate y) = 1 := by
    rw [List.countP_map]
    have : (isYearUpdate y ∘ fun y2 => WriteOp.updateYear y2 (placedCompaniesInYear cs y2)) =
        fun y2 => y2 == y := by
      funext y2
      rfl
    rw [this]
    exact List.count_eq_one_of_mem (affectedYears_nodup cs) hy
  rw [hflat, hyear]
  simp [isYearUpdate]

theorem allOps_yearTPDecs (db : DB) (sid : String)
    (cs : List (String × CompanyInfo)) (y : Nat) (hy : y ∈ affectedYears cs) :
    yearTPDecs y (plannedOps db sid cs ++ [WriteOp.deleteStudent sid]) =
      (placedCompaniesInYear cs y).length := by
  unfold plannedOps
  rw [yearTPDecs_append, yearTPDecs_append, yearTPDecs_append, yearTPDecs_flatten]
  have hflat : ((cs.map (companyOps db sid)).map (yearTPDecs y)).sum = 0 := by
    apply List.sum_eq_zero
    intro x hx
    obtain ⟨l2, hl2, rfl⟩ := List.mem_map.mp hx
    obtain ⟨e, he, rfl⟩ := List.mem_map.mp hl2
    exact companyOps_yearTPDecs db sid y e
  have hyear : yearTPDecs y ((affectedYears cs).map
      (fun y2 => WriteOp.updateYear y2 (placedCompaniesInYear cs y2))) =
      (placedCompaniesInYear cs y).length := by
    unfold yearTPDecs
    rw [List.map_map]
    rw [sum_map_single_nat (affectedYears cs) y (affectedYears_nodup cs) hy _
      (fun y2 hy2 hyy => by simp [Function.comp, hyy])]
    simp [Function.comp]
  rw [hflat, hyear]
  simp [yearTPDecs]

theorem allOps_yearCWDecs (db : DB) (sid : String)
    (cs : List (String × CompanyInfo)) (y : Nat) (hy : y ∈ affectedYears cs)
    (cid : String) :
    yearCWDecs y cid (plannedOps db sid cs ++ [WriteOp.deleteStudent sid]) =
      (placedCompaniesInYear cs y).count cid := by
  unfold plannedOps
  rw [yearCWDecs_append, yearCWDecs_append, yearCWDecs_append, yearCWDecs_flatten]
  have hflat : ((cs.map (companyOps db sid)).map (yearCWDecs y cid)).sum = 0 := by
    apply List.sum_eq_zero
    intro x hx
    obtain ⟨l2, hl2, rfl⟩ := List.mem_map.mp hx
    obtain ⟨e, he, rfl⟩ := List.mem_map.mp hl2
    exact companyOps_yearCWDecs db sid cid y e
  have hyear : yearCWDecs y cid ((affectedYears cs).map
      (fun y2 => WriteOp.updateYear y2 (placedCompaniesInYear cs y2))) =
      (placedCompaniesInYear cs y).count cid := by
    unfold yearCWDecs
    rw [List.map_map]
    rw [sum_map_single_nat (affectedYears cs) y (affectedYears_nodup cs) hy _
      (fun y2 hy2 hyy => by simp [Function.comp, hyy])]
    simp [Function.comp]
  rw [hflat, hyear]
  simp [yearCWDecs]

theorem mem_allOps_deleteStudent (db : DB) (sid : String)
    (cs : List (String × CompanyInfo)) :
    WriteOp.deleteStudent sid ∈ plannedOps db sid cs ++ [WriteOp.deleteStudent sid] := by
  apply List.mem_append_right
  exact List.mem_singleton.mpr rfl

theorem mem_allOps_deletePlacement (db : DB) (sid : String)
    (cs : List (String × CompanyInfo)) (cid : String) (info : CompanyInfo)
    (hm : (cid, info) ∈ cs) (hf : info.finalSelection = true) :
    WriteOp.deletePlacement cid sid ∈ plannedOps db sid cs ++ [WriteOp.deleteStudent sid] := by
  apply List.mem_append_left
  unfold plannedOps
  apply List.mem_append_left
  apply List.mem_append_left
  rw [List.mem_flatten]
  refine ⟨companyOps db sid (cid, info), List.mem_map_of_mem _ hm, ?_⟩
  unfold companyOps
  apply List.mem_append_left
  apply List.mem_append_left
  simp [hf]

/-! Size bounds on committed batches. -/

theorem enqueue_opCount (st : BState) (op : WriteOp) :
    (enqueue st op).opCount = st.opCount + 1 := rfl

theorem enqueue_eq (st : BState) (op : WriteOp) :
    enqueue st op = ⟨st.batch ++ [op], st.opCount + 1, st.committed⟩ := rfl

theorem checkCommit_spec (st : BState) (hG : Good st) (h5 : st.opCount ≤ 501)
    (hB : ∀ b ∈ st.committed, b.length ≤ 501) :
    Good (checkCommit st) ∧ (checkCommit st).opCount ≤ 499
    ∧ ∀ b ∈ (checkCommit st).committed, b.length ≤ 501 := by
  unfold checkCommit
  split
  · refine ⟨rfl, by simp [commitBatch], ?_⟩
    intro b hb
    rcases List.mem_append.mp hb with h | h
    · exact hB b h
    · rw [List.mem_singleton.mp h]
      rw [← hG]
      exact h5
  · next h => exact ⟨hG, by omega, hB⟩

theorem processRound_bound (sid cid : String) (acc : BState × CascadeStats) (rd : Round)
    (hG : Good acc.1) (h5 : acc.1.opCount ≤ 500)
    (hB : ∀ b ∈ acc.1.committed, b.length ≤ 501) :
    Good (processRound sid cid acc rd).1
    ∧ (processRound sid cid acc rd).1.opCount ≤ 500
    ∧ ∀ b ∈ (processRound sid cid acc rd).1.committed, b.length ≤ 501 := by
  unfold processRound
  cases matchedRow sid rd with
  | none => exact ⟨hG, h5, hB⟩
  | some row =>
      obtain ⟨g, c, b⟩ := checkCommit_spec (enqueue acc.1 (.deleteRoundData cid rd.id row.id))
        (good_enqueue _ _ hG) (by rw [enqueue_opCount]; omega) hB
      refine ⟨g, ?_, b⟩
      show (checkCommit (enqueue acc.1 (.deleteRoundData cid rd.id row.id))).opCount ≤ 500
      omega

theorem roundsFold_bound (sid cid : String) (rounds : List Round)
    (acc : BState × CascadeStats)
    (hG : Good acc.1) (h5 : acc.1.opCount ≤ 500)
    (hB : ∀ b ∈ acc.1.committed, b.length ≤ 501) :
    Good (rounds.foldl (processRound sid cid) acc).1
    ∧ (rounds.foldl (processRound sid cid) acc).1.opCount ≤ 500
    ∧ ∀ b ∈ (rounds.foldl (processRound sid cid) acc).1.committed, b.length ≤ 501 := by
  induction rounds generalizing acc with
  | nil => exact ⟨hG, h5, hB⟩
  | cons rd rds ih =>
      obtain ⟨g, c, b⟩ := processRound_bound sid cid acc rd hG h5 hB
      exact ih _ g c b

theorem processCompany_bound (db : DB) (sid : String) (acc : BState × CascadeStats)
    (entry : String × CompanyInfo)
    (hG : Good acc.1) (h5 : acc.1.opCount ≤ 499)
    (hB : ∀ b ∈ acc.1.committed, b.length ≤ 501) :
    Good (processCompany db sid acc entry).1
    ∧ (processCompany db sid acc entry).1.opCount ≤ 499
    ∧ ∀ b ∈ (processCompany db sid acc entry).1.committed, b.length ≤ 501 := by
  unfold processCompany
  cases hp : entry.2.finalSelection with
  | false =>
      simp only [hp, Bool.false_eq_true, if_false]
      obtain ⟨g, c, b⟩ := roundsFold_bound sid entry.1
        (((lookupA entry.1 db.companies).map Company.rounds).getD [])
        (acc.1, ⟨acc.2.companiesAffected + 1, acc.2.roundsDeleted, acc.2.placementsDeleted,
          addYear acc.2.yearsAffected entry.2.year, acc.2.totalOffers⟩)
        hG (by exact (show acc.1.opCount ≤ 500 by omega)) hB
      exact checkCommit_spec _ (good_enqueue _ _ g) (by rw [enqueue_opCount]; omega) b
  | true =>
      simp only [hp, if_true]
      obtain ⟨g, c, b⟩ := roundsFold_bound sid entry.1
        (((lookupA entry.1 db.companies).map Company.rounds).getD [])
        (enqueue acc.1 (.deletePlacement entry.1 sid),
         ⟨acc.2.companiesAffected + 1, acc.2.roundsDeleted, acc.2.placementsDeleted + 1,
          addYear acc.2.yearsAffected entry.2.year, acc.2.totalOffers⟩)
        (good_enqueue _ _ hG)
        (by exact (show (enqueue acc.1 (.deletePlacement entry.1 sid)).opCount ≤ 500 by
          rw [enqueue_opCount]; omega)) hB
      exact checkCommit_spec _ (good_enqueue _ _ g) (by rw [enqueue_opCount]; omega) b

theorem companiesFold_bound (db : DB) (sid : String)
    (cs : List (String × CompanyInfo)) (acc : BState × CascadeStats)
    (hG : Good acc.1) (h5 : acc.1.opCount ≤ 499)
    (hB : ∀ b ∈ acc.1.committed, b.length ≤ 501) :
    Good (cs.foldl (processCompany db sid) acc).1
    ∧ (cs.foldl (processCompany db sid) acc).1.opCount ≤ 499
    ∧ ∀ b ∈ (cs.foldl (processCompany db sid) acc).1.committed, b.length ≤ 501 := by
  induction cs generalizing acc with
  | nil => exact ⟨hG, h5, hB⟩
  | cons e es ih =>
      obtain ⟨g, c, b⟩ := processCompany_bound db sid acc e hG h5 hB
      exact ih _ g c b

theorem yearsFold_state (cs : List (String × CompanyInfo)) (ys : List Nat)
    (st : BState) :
    (ys.foldl (fun st y =>
        enqueue st (.updateYear y (placedCompaniesInYear cs y))) st).committed =
      st.committed
    ∧ (ys.foldl (fun st y =>
        enqueue st (.updateYear y (placedCompaniesInYear cs y))) st).opCount =
      st.opCount + ys.length
    ∧ (Good st → Good (ys.foldl (fun st y =>
        enqueue st (.updateYear y (placedCompaniesInYear cs y))) st)) := by
  induction ys generalizing st with
  | nil => exact ⟨rfl, rfl, fun h => h⟩
  | cons y ys ih =>
      obtain ⟨c, o, g⟩ := ih (enqueue st (.updateYear y (placedCompaniesInYear cs y)))
      refine ⟨c, ?_, fun h => g (good_enqueue _ _ h)⟩
      rw [List.foldl_cons, o]
      simp [enqueue]
      omega

theorem cascadeCore_bound (db : DB) (sid : String) (stu : Student) :
    ∀ b ∈ (cascadeCore db sid stu).1.committed,
      b.length ≤ 501 + (affectedYears stu.companyStatus).length := by
  obtain ⟨gC, cC, bC⟩ := companiesFold_bound db sid stu.companyStatus
    (emptyBState, ⟨0, 0, 0, [], stu.totalOffers⟩) good_emptyBState (by simp [emptyBState])
    (by intro b hb; cases hb)
  obtain ⟨_, _, _, _, hyears, _⟩ := companiesFold_spec db sid stu.companyStatus
    (emptyBState, ⟨0, 0, 0, [], stu.totalOffers⟩)
  set acc := stu.companyStatus.foldl (processCompany db sid)
    (emptyBState, ⟨0, 0, 0, [], stu.totalOffers⟩) with hacc
  have hyA : acc.2.yearsAffected = affectedYears stu.companyStatus := by
    rw [hyears]
    rfl
  obtain ⟨cY, oY, gY⟩ := yearsFold_state stu.companyStatus acc.2.yearsAffected acc.1
  set stY := acc.2.yearsAffected.foldl
    (fun st y => enqueue st (.updateYear y (placedCompaniesInYear stu.companyStatus y)))
    acc.1 with hstY
  have hcore : (cascadeCore db sid stu).1.committed =
      stY.committed ++ [stY.batch ++ [WriteOp.deleteStudent sid]] := by
    show (if (enqueue stY (.deleteStudent sid)).opCount > 0 then
        commitBatch (enqueue stY (.deleteStudent sid))
      else enqueue stY (.deleteStudent sid)).committed = _
    rw [if_pos (by simp [enqueue])]
    rfl
  intro b hb
  rw [hcore] at hb
  rcases List.mem_append.mp hb with h | h
  · have := bC b (by rw [← cY]; exact h)
    omega
  · rw [List.mem_singleton.mp h]
    have hlen : stY.batch.length = stY.opCount := (gY gC).symm
    have : stY.opCount ≤ 499 + acc.2.yearsAffected.length := by
      rw [oY]
      omega
    rw [List.length_append, hlen]
    simp only [List.length_singleton]
    rw [hyA] at this
    omega

/-! Claim theorems. -/

/-- C4: for every SystemStats record whose counter fields are all nonnegative
(or an absent record) and for every single increment or decrement call
(`decrement_stat` is by definition `increment_stat` of the negated value),
every stored counter field remains nonnegative afterwards; in particular a
decrement whose magnitude exceeds the current value stores exactly 0, because
decrements store `max 0 (current + delta)`. -/
theorem claim_C4_nonneg_invariant (st : Option StatsDoc) (field : String)
    (value : Int) (now : Nat)
    (hnn : ∀ d, st = some d → ∀ f, 0 ≤ d.fields f) :
    (∀ d2, increment_stat st field value now = some d2 → ∀ f, 0 ≤ d2.fields f)
    ∧ (∀ d, st = some d → value < 0 → d.fields field + value < 0 →
        ∀ d2, increment_stat st field value now = some d2 → d2.fields field = 0) := by
  cases st with
  | none =>
      simp only [increment_stat]
      by_cases hv : value < 0
      · rw [if_pos hv]
        constructor
        · intro d2 hd2 f
          cases hd2
          by_cases hf : f = field <;> simp [hf]
        · intro d hd
          cases hd
      · rw [if_neg hv]
        constructor
        · intro d2 hd2 f
          cases hd2
          by_cases hf : f = field <;> simp [hf] <;> omega
        · intro d hd
          cases hd
  | some doc =>
      have hdoc := hnn doc rfl
      simp only [increment_stat]
      by_cases hv : value < 0
      · rw [if_pos hv]
        by_cases hskip : max 0 (doc.fields field + value) = doc.fields field
            ∧ doc.fields field = 0
        · rw [if_pos hskip]
          constructor
          · intro d2 hd2 f
            cases hd2
            exact hdoc f
          · intro d hd hv2 hneg d2 hd2
            cases hd
            cases hd2
            exact hskip.2
        · rw [if_neg hskip]
          constructor
          · intro d2 hd2 f
            cases hd2
            by_cases hf : f = field
            · have h0 := hdoc field
              simp only [hf]
              simp
            · simp only [if_neg hf]
              exact hdoc f
          · intro d hd hv2 hneg d2 hd2
            cases hd
            cases hd2
            have h0 := hdoc field
            simp
            omega
      · rw [if_neg hv]
        constructor
        · intro d2 hd2 f
          cases hd2
          by_cases hf : f = field
          · simp only [hf, if_pos rfl]
            have := hdoc field
            omega
          · simp only [if_neg hf]
            exact hdoc f
        · intro d hd hv2
          omega

/-- Witness for C4 at a concrete zero-valued record, the field
`totalStudents`, and the decrement delta `-5`. -/
theorem claim_C4_nonneg_invariant_witness :
    (∀ d2, increment_stat (some statsZero) "totalStudents" (-5) 7 = some d2 →
      ∀ f, 0 ≤ d2.fields f)
    ∧ (∀ d, some statsZero = some d → (-5 : Int) < 0 →
        d.fields "totalStudents" + (-5) < 0 →
        ∀ d2, increment_stat (some statsZero) "totalStudents" (-5) 7 = some d2 →
          d2.fields "totalStudents" = 0) :=
  claim_C4_nonneg_invariant (some statsZero) "totalStudents" (-5) 7
    (fun d hd f => by cases hd; exact le_refl 0)

/-- C7: on a record that does not exist yet, `increment_stat` with a
nonnegative value creates the record with the field equal to that value, and
with a negative value creates it with the field equal to 0, never negative. -/
theorem claim_C7_creation_on_first_increment (field : String) (v : Int) (now : Nat) :
    ((increment_stat none field v now).isSome = true)
    ∧ (0 ≤ v → (increment_stat none field v now).map (·.fields field) = some v)
    ∧ (v < 0 → (increment_stat none field v now).map (·.fields field) = some 0) := by
  unfold increment_stat
  by_cases hv : v < 0
  · rw [if_pos hv]
    refine ⟨rfl, ?_, ?_⟩
    · intro h0
      omega
    · intro _
      simp
  · rw [if_neg hv]
    refine ⟨rfl, ?_, ?_⟩
    · intro _
      simp
    · intro h
      exact absurd h hv

/-- Witness for C7 at the field `totalOffers`, the values 5 and -3, and
timestamp 0. -/
theorem claim_C7_creation_on_first_increment_witness :
    (increment_stat none "totalOffers" 5 0).map (·.fields "totalOffers") = some 5
    ∧ (increment_stat none "totalOffers" (-3) 0).map (·.fields "totalOffers") = some 0 :=
  ⟨(claim_C7_creation_on_first_increment "totalOffers" 5 0).2.1 (by omega),
   (claim_C7_creation_on_first_increment "totalOffers" (-3) 0).2.2 (by omega)⟩

/-- C8 counterexample: on a record whose field is 0 and whose `lastUpdated`
is 5, `decrement_stat` with delta 0 routes through the nonnegative increment
path (since `-0` is not negative) and stamps `lastUpdated` with the new
timestamp 99 — the call is not a no-op as the claim states. -/
theorem claim_C8_counterexample :
    (decrement_stat (some statsStamped) "totalStudents" 0 99).map (·.lastUpdated) =
      some (some 99)
    ∧ statsStamped.lastUpdated = some 5 := by
  constructor
  · rfl
  · rfl

/-- C8 amended: for every field whose current stored value is 0, calling
`decrement_stat` with a positive delta performs no write at all, returning the
record unchanged (the deliberate skip path); `decrement_stat` with delta 0,
however, routes through the nonnegative increment path and stamps
`lastUpdated` with the current time. -/
theorem claim_C8_amended (doc : StatsDoc) (field : String) (d : Int) (now : Nat)
    (hz : doc.fields field = 0) :
    (0 < d → decrement_stat (some doc) field d now = some doc)
    ∧ (decrement_stat (some doc) field 0 now).map (·.lastUpdated) = some (some now) := by
  constructor
  · intro hd
    simp only [decrement_stat, increment_stat]
    rw [if_pos (by omega : -d < 0)]
    have hc : max 0 (doc.fields field + -d) = doc.fields field ∧ doc.fields field = 0 := by
      constructor <;> omega
    rw [if_pos hc]
  · simp only [decrement_stat, increment_stat]
    rw [if_neg (by omega : ¬ (-(0 : Int)) < 0)]
    rfl

/-- Witness for C8 amended at a concrete record with the field at 0 and the
delta 3. -/
theorem claim_C8_amended_witness :
    decrement_stat (some statsStamped) "totalPlaced" 3 99 = some statsStamped
    ∧ (decrement_stat (some statsStamped) "totalPlaced" 0 99).map (·.lastUpdated) =
        some (some 99) :=
  ⟨(claim_C8_amended statsStamped "totalPlaced" 3 99 rfl).1 (by omega),
   (claim_C8_amended statsStamped "totalPlaced" 0 99 rfl).2⟩

/-- C3: rebuilding the stats from source and then reading them returns
counters equal to an independent full recomputation over the Years, Companies
and Students collections: the year count, the company count with its
completed and running split, the student count with its placed and not-placed
split, and the summed `totalOffers`. -/
theorem claim_C3_rebuild_equivalence (db : DB) (st : Option StatsDoc) (now : Nat) :
    (get_system_stats (rebuildFromSource db st now)).fields "totalYears" =
      (specFullRecount db).totalYears
    ∧ (get_system_stats (rebuildFromSource db st now)).fields "totalCompanies" =
        (specFullRecount db).totalCompanies
    ∧ (get_system_stats (rebuildFromSource db st now)).fields "completedCompanies" =
        (specFullRecount db).completedCompanies
    ∧ (get_system_stats (rebuildFromSource db st now)).fields "runningCompanies" =
        (specFullRecount db).runningCompanies
    ∧ (get_system_stats (rebuildFromSource db st now)).fields "totalStudents" =
        (specFullRecount db).totalStudents
    ∧ (get_system_stats (rebuildFromSource db st now)).fields "totalPlaced" =
        (specFullRecount db).totalPlaced
    ∧ (get_system_stats (rebuildFromSource db st now)).fields "totalNotPlaced" =
        (specFullRecount db).totalNotPlaced
    ∧ (get_system_stats (rebuildFromSource db st now)).fields "totalOffers" =
        (specFullRecount db).totalOffers
    ∧ (specFullRecount db).totalPlaced + (specFullRecount db).totalNotPlaced =
        (specFullRecount db).totalStudents := by
  refine ⟨?_, ?_, ?_, ?_, ?_, ?_, ?_, ?_, ?_⟩
  all_goals
    simp [get_system_stats, rebuildFromSource, initialize_system_stats, specFullRecount,
      List.countP_eq_length_filter, ← List.length_eq_length_filter_add]

/-- C5: for an identifier that names no Student document, the cascade fails
with the not-found error, commits zero batches, and leaves the store exactly
as it was. -/
theorem claim_C5_notfound_atomicity (db : DB) (sid : String) (now : Nat)
    (h : lookupA sid db.students = none) :
    delete_student_cascade db sid now =
      ⟨.error ("Student " ++ sid ++ " not found"), [], db⟩ := by
  unfold delete_student_cascade
  rw [h]

/-- Witness for C5 on the empty store and the identifier X. -/
theorem claim_C5_notfound_atomicity_witness :
    delete_student_cascade emptyDB "X" 0 =
      ⟨.error ("Student " ++ "X" ++ " not found"), [], emptyDB⟩ :=
  claim_C5_notfound_atomicity emptyDB "X" 0 rfl

/-- C10: the dashboard summary reads the Year document with the hardcoded key
2026: its `latestYear` section depends only on the year-2026 document and the
year-2026 companies (and on nothing else in the request or store), and its
`year` field is the constant 2026. -/
theorem dashboard_latest_year_congr (db1 db2 : DB)
    (hy : lookupA 2026 db1.years = lookupA 2026 db2.years)
    (hc : db1.companies.filter (fun p => p.2.year == some 2026) =
          db2.companies.filter (fun p => p.2.year == some 2026)) :
    dashboard_latest_year db1 = dashboard_latest_year db2 := by
  have hb : buildCompanyWise db1 2026 = buildCompanyWise db2 2026 := by
    unfold buildCompanyWise
    rw [hc]
  simp only [dashboard_latest_year]
  rw [hy, hb]

theorem dashboard_latest_year_year (db : DB) :
    (dashboard_latest_year db).year = 2026 := by
  simp only [dashboard_latest_year]
  cases h : lookupA 2026 db.years <;> split <;> rfl

/-- C10: the dashboard summary reads the Year document with the hardcoded key
2026: its `latestYear` section depends only on the year-2026 document and the
year-2026 companies (and on nothing else in the request or store), and its
`year` field is the constant 2026. -/
theorem claim_C10_hardcoded_dashboard_year (db1 db2 : DB)
    (st1 st2 : Option StatsDoc)
    (hy : lookupA 2026 db1.years = lookupA 2026 db2.years)
    (hc : db1.companies.filter (fun p => p.2.year == some 2026) =
          db2.companies.filter (fun p => p.2.year == some 2026)) :
    (get_dashboard_summary db1 st1).latestYear = (get_dashboard_summary db2 st2).latestYear
    ∧ (get_dashboard_summary db1 st1).latestYear.year = 2026 := by
  have h1 : (get_dashboard_summary db1 st1).latestYear = dashboard_latest_year db1 := rfl
  have h2 : (get_dashboard_summary db2 st2).latestYear = dashboard_latest_year db2 := rfl
  rw [h1, h2]
  exact ⟨dashboard_latest_year_congr db1 db2 hy hc, dashboard_latest_year_year db1⟩

/-- Witness for C10 on two stores that agree on the 2026 Year document and on
the year-2026 companies but differ everywhere else. -/
theorem claim_C10_hardcoded_dashboard_year_witness :
    (get_dashboard_summary exampleDB (some statsZero)).latestYear =
      (get_dashboard_summary dashOnlyDB none).latestYear
    ∧ (get_dashboard_summary exampleDB (some statsZero)).latestYear.year = 2026 :=
  claim_C10_hardcoded_dashboard_year exampleDB dashOnlyDB (some statsZero) none
    (by decide) (by decide)

/-- C6 counterexample: for the concrete student S (pre-deletion
`totalOffers` 2), the summary the cascade returns carries only the keys
message, studentId, studentName and the four cascadingUpdates counts —
`totalOffers` appears nowhere in it, although the claim requires the summary
to contain the pre-deletion `totalOffers`. -/
theorem claim_C6_counterexample :
    (delete_student_cascade exampleDB "S" 42).result.toOption.map allSummaryKeys =
      some ["message", "studentId", "studentName", "cascadingUpdates",
            "companiesAffected", "roundsDeleted", "placementsDeleted", "yearsAffected"]
    ∧ "totalOffers" ∉
        ["message", "studentId", "studentName", "cascadingUpdates",
         "companiesAffected", "roundsDeleted", "placementsDeleted", "yearsAffected"]
    ∧ exampleStudent.totalOffers = 2 := by
  refine ⟨rfl, ?_, rfl⟩
  decide

/-- C6 amended: for every existing Student, a successful cascade returns a
summary containing the student name, the count of companies affected, of
round-data rows deleted, of placements deleted, and of distinct years
affected — but not the pre-deletion `totalOffers`, which the source collects
and never returns. -/
theorem claim_C6_amended_summary_contents (db : DB) (sid : String) (stu : Student)
    (now : Nat) (hstu : lookupA sid db.students = some stu) :
    (delete_student_cascade db sid now).result =
      .ok [("message", .s "Student deleted successfully"),
           ("studentId", .s sid),
           ("studentName", .s (stu.name.getD "Unknown")),
           ("cascadingUpdates", .obj
             [("companiesAffected", .n stu.companyStatus.length),
              ("roundsDeleted", .n (stu.companyStatus.map (roundsMatched db sid)).sum),
              ("placementsDeleted", .n (stu.companyStatus.countP (fun p => p.2.finalSelection))),
              ("yearsAffected", .n (affectedYears stu.companyStatus).length)])]
    ∧ (∀ r, (delete_student_cascade db sid now).result = .ok r →
        allSummaryKeys r =
          ["message", "studentId", "studentName", "cascadingUpdates",
           "companiesAffected", "roundsDeleted", "placementsDeleted", "yearsAffected"]
        ∧ "totalOffers" ∉ allSummaryKeys r) := by
  have hres := cascade_result_eq db sid stu now hstu
  refine ⟨hres, ?_⟩
  intro r hr
  rw [hres] at hr
  cases hr
  constructor
  · rfl
  · intro hmem
    rw [show allSummaryKeys
      [("message", SVal.s "Student deleted successfully"),
       ("studentId", SVal.s sid),
       ("studentName", SVal.s (stu.name.getD "Unknown")),
       ("cascadingUpdates", SVal.obj
         [("companiesAffected", SVal.n stu.companyStatus.length),
          ("roundsDeleted", SVal.n (stu.companyStatus.map (roundsMatched db sid)).sum),
          ("placementsDeleted", SVal.n (stu.companyStatus.countP (fun p => p.2.finalSelection))),
          ("yearsAffected", SVal.n (affectedYears stu.companyStatus).length)])] =
      ["message", "studentId", "studentName", "cascadingUpdates",
       "companiesAffected", "roundsDeleted", "placementsDeleted", "yearsAffected"] from rfl] at hmem
    revert hmem
    decide

/-- Witness for C6 amended at the concrete student S of the example store. -/
theorem claim_C6_amended_summary_contents_witness :
    (delete_student_cascade exampleDB "S" 42).result =
      .ok [("message", .s "Student deleted successfully"),
           ("studentId", .s "S"),
           ("studentName", .s (exampleStudent.name.getD "Unknown")),
           ("cascadingUpdates", .obj
             [("companiesAffected", .n exampleStudent.companyStatus.length),
              ("roundsDeleted", .n (exampleStudent.companyStatus.map (roundsMatched exampleDB "S")).sum),
              ("placementsDeleted", .n (exampleStudent.companyStatus.countP (fun p => p.2.finalSelection))),
              ("yearsAffected", .n (affectedYears exampleStudent.companyStatus).length)])]
    ∧ (∀ r, (delete_student_cascade exampleDB "S" 42).result = .ok r →
        allSummaryKeys r =
          ["message", "studentId", "studentName", "cascadingUpdates",
           "companiesAffected", "roundsDeleted", "placementsDeleted", "yearsAffected"]
        ∧ "totalOffers" ∉ allSummaryKeys r) :=
  claim_C6_amended_summary_contents exampleDB "S" exampleStudent 42 (by decide)

/-- C9: the duplicate student deletion of step 5 is harmless — the store the
cascade produces equals the store produced by the variant that deletes the
student exactly once, and the student document is absent after success. -/
theorem claim_C9_duplicate_delete_harmless (db : DB) (sid : String) (stu : Student)
    (now : Nat) (hstu : lookupA sid db.students = some stu) :
    (delete_student_cascade db sid now).db = (delete_student_cascade_once db sid now).db
    ∧ studLookup (delete_student_cascade db sid now).db sid = none := by
  have h1 := cascade_db_eq db sid stu now hstu
  have h2 := cascade_once_db_eq db sid stu now hstu
  constructor
  · rw [h1, h2]
    rw [List.foldl_append]
    rw [show plannedOps db sid stu.companyStatus =
      ((stu.companyStatus.map (companyOps db sid)).flatten ++
        (affectedYears stu.companyStatus).map
          (fun y => WriteOp.updateYear y (placedCompaniesInYear stu.companyStatus y)))
      ++ [WriteOp.deleteStudent sid] from rfl]
    rw [List.foldl_append, List.foldl_append]
    simp only [List.foldl_cons, List.foldl_nil]
    exact deleteStudent_idem now _ sid
  · rw [h1]
    exact studLookup_foldl_none now _ db sid
      (mem_allOps_deleteStudent db sid stu.companyStatus)

/-- Witness for C9 at the concrete student S of the example store. -/
theorem claim_C9_duplicate_delete_harmless_witness :
    (delete_student_cascade exampleDB "S" 42).db =
      (delete_student_cascade_once exampleDB "S" 42).db
    ∧ studLookup (delete_student_cascade exampleDB "S" 42).db "S" = none :=
  claim_C9_duplicate_delete_harmless exampleDB "S" exampleStudent 42 (by decide)

/-- C1: cascade completeness.  For a Student whose `companyStatus` references
N Company-Years, M of which have `finalSelection` true, a successful cascade
enqueues exactly M placement deletions, leaves the Student document absent,
decrements every referenced Company-Year `totalApplied` by exactly 1 and its
`totalPlaced` by 1 when the student was placed there (with the placement
document absent afterwards), and for every affected year decrements the Year
`totalStudentsParticipated` by 1, each matching `companyWise.<id>.placed` by
1, and the Year `totalPlaced` by the number of `finalSelection` entries of
that year. -/
theorem claim_C1_cascade_completeness (db : DB) (sid : String) (stu : Student)
    (now : Nat) (hstu : lookupA sid db.students = some stu)
    (hnd : (stu.companyStatus.map Prod.fst).Nodup) :
    ((delete_student_cascade db sid now).committed.flatten.countP
        (isPlacementDelete sid) =
      stu.companyStatus.countP (fun p => p.2.finalSelection))
    ∧ studLookup (delete_student_cascade db sid now).db sid = none
    ∧ (∀ p ∈ stu.companyStatus,
        compApplied (delete_student_cascade db sid now).db p.1 =
          (compApplied db p.1).map (· - 1)
        ∧ compPlaced (delete_student_cascade db sid now).db p.1 =
            (compPlaced db p.1).map (· - (if p.2.finalSelection then 1 else 0))
        ∧ (p.2.finalSelection = true →
            compHasPlacement (delete_student_cascade db sid now).db p.1 sid ≠ some true))
    ∧ (∀ y ∈ affectedYears stu.companyStatus,
        yearTSP (delete_student_cascade db sid now).db y = (yearTSP db y).map (· - 1)
        ∧ yearTP (delete_student_cascade db sid now).db y =
            (yearTP db y).map
              (fun v => v - ((placedCompaniesInYear stu.companyStatus y).length : Int))
        ∧ (∀ p ∈ stu.companyStatus, p.2.year = some y → p.2.finalSelection = true →
            yearCWPlaced (delete_student_cascade db sid now).db y p.1 =
              (yearCWPlaced db y p.1).map (· - 1))) := by
  have hdb := cascade_db_eq db sid stu now hstu
  have hcom := cascade_committed db sid stu now hstu
  refine ⟨?_, ?_, ?_, ?_⟩
  · rw [hcom]
    exact allOps_countP_placementDelete db sid stu.companyStatus
  · rw [hdb]
    exact studLookup_foldl_none now _ db sid
      (mem_allOps_deleteStudent db sid stu.companyStatus)
  · rintro ⟨cid, info⟩ hp
    refine ⟨?_, ?_, ?_⟩
    · rw [hdb, compApplied_foldl,
        allOps_countP_companyUpdate db sid stu.companyStatus hnd cid info hp]
      cases h : compApplied db cid <;> simp [h]
    · rw [hdb, compPlaced_foldl,
        allOps_countP_placedUpdate db sid stu.companyStatus hnd cid info hp]
      cases h : compPlaced db cid <;> cases hf : info.finalSelection <;> simp [h, hf]
    · intro hf
      rw [hdb]
      exact hasPlacement_foldl_ne_true now _ db cid sid
        (mem_allOps_deletePlacement db sid stu.companyStatus cid info hp hf)
  · intro y hy
    refine ⟨?_, ?_, ?_⟩
    · rw [hdb, yearTSP_foldl, allOps_countP_yearUpdate db sid stu.companyStatus y hy]
      cases h : yearTSP db y <;> simp [h]
    · rw [hdb, yearTP_foldl, allOps_yearTPDecs db sid stu.companyStatus y hy]
    · rintro ⟨cid, info⟩ hp hyp hfp
      rw [hdb, yearCWPlaced_foldl, allOps_yearCWDecs db sid stu.companyStatus y hy cid,
        count_placedCompanies_eq_one stu.companyStatus y hnd cid info hp hyp hfp]
      cases h : yearCWPlaced db y cid <;> simp [h]

/-- Witness for C1 at the concrete student S of the example store: three
referenced Company-Years across two years, two of them with `finalSelection`
true. -/
theorem claim_C1_cascade_completeness_witness :
    ((delete_student_cascade exampleDB "S" 42).committed.flatten.countP
        (isPlacementDelete "S") =
      exampleStudent.companyStatus.countP (fun p => p.2.finalSelection))
    ∧ studLookup (delete_student_cascade exampleDB "S" 42).db "S" = none
    ∧ (∀ p ∈ exampleStudent.companyStatus,
        compApplied (delete_student_cascade exampleDB "S" 42).db p.1 =
          (compApplied exampleDB p.1).map (· - 1)
        ∧ compPlaced (delete_student_cascade exampleDB "S" 42).db p.1 =
            (compPlaced exampleDB p.1).map (· - (if p.2.finalSelection then 1 else 0))
        ∧ (p.2.finalSelection = true →
            compHasPlacement (delete_student_cascade exampleDB "S" 42).db p.1 "S" ≠ some true))
    ∧ (∀ y ∈ affectedYears exampleStudent.companyStatus,
        yearTSP (delete_student_cascade exampleDB "S" 42).db y =
          (yearTSP exampleDB y).map (· - 1)
        ∧ yearTP (delete_student_cascade exampleDB "S" 42).db y =
            (yearTP exampleDB y).map
              (fun v => v - ((placedCompaniesInYear exampleStudent.companyStatus y).length : Int))
        ∧ (∀ p ∈ exampleStudent.companyStatus, p.2.year = some y →
            p.2.finalSelection = true →
            yearCWPlaced (delete_student_cascade exampleDB "S" 42).db y p.1 =
              (yearCWPlaced exampleDB y p.1).map (· - 1))) :=
  claim_C1_cascade_completeness exampleDB "S" exampleStudent 42 (by decide) (by decide)

/-- C2 amended: the ceiling check runs only after round-data deletion
enqueues and company-update enqueues (not after placement deletions, year
updates, or the student deletion), committing and resetting at 500; in
consequence a committed batch can exceed 500 operations, but never exceeds
501 + Y operations, where Y is the number of affected years. -/
theorem claim_C2_amended_batch_bound (db : DB) (sid : String) (stu : Student)
    (now : Nat) (hstu : lookupA sid db.students = some stu) :
    ∀ b ∈ (delete_student_cascade db sid now).committed,
      b.length ≤ 501 + (affectedYears stu.companyStatus).length := by
  intro b hb
  have hcommit : (delete_student_cascade db sid now).committed =
      (cascadeCore db sid stu).1.committed ++ [[WriteOp.deleteStudent sid]] := by
    unfold delete_student_cascade
    rw [hstu]
    rfl
  rw [hcommit] at hb
  rcases List.mem_append.mp hb with h | h
  · exact cascadeCore_bound db sid stu b h
  · rw [List.mem_singleton.mp h]
    simp only [List.length_cons, List.length_nil]
    omega

/-- Witness for the amended C2 bound at the concrete student S of the example
store, instantiated at the first committed batch. -/
theorem claim_C2_amended_batch_bound_witness :
    ((delete_student_cascade exampleDB "S" 42).committed.headD []).length ≤
      501 + (affectedYears exampleStudent.companyStatus).length :=
  claim_C2_amended_batch_bound exampleDB "S" exampleStudent 42 (by decide)
    ((delete_student_cascade exampleDB "S" 42).committed.headD []) (by decide)

/-! Symbolic trace of the overflow scenario for the C2 counterexample. -/

theorem filterMap_replicate_some {α β : Type} (n : Nat) (a : α) (f : α → Option β)
    (b : β) (h : f a = some b) :
    (List.replicate n a).filterMap f = List.replicate n b := by
  induction n with
  | zero => rfl
  | succ n ih => simp [List.replicate_succ, List.filterMap_cons, h, ih]

theorem roundsFold_no_commit (sid cid : String) (rounds : List Round)
    (acc : BState × CascadeStats)
    (h : acc.1.opCount + (roundOps sid cid rounds).length ≤ 499) :
    (rounds.foldl (processRound sid cid) acc).1.batch =
        acc.1.batch ++ roundOps sid cid rounds
    ∧ (rounds.foldl (processRound sid cid) acc).1.opCount =
        acc.1.opCount + (roundOps sid cid rounds).length
    ∧ (rounds.foldl (processRound sid cid) acc).1.committed = acc.1.committed := by
  induction rounds generalizing acc with
  | nil => simp [roundOps]
  | cons rd rds ih =>
      rw [List.foldl_cons]
      have hsplit : roundOps sid cid (rd :: rds) =
          (match matchedRow sid rd with
           | none => []
           | some row => [WriteOp.deleteRoundData cid rd.id row.id]) ++
            roundOps sid cid rds := by
        unfold roundOps
        rw [List.filterMap_cons]
        cases matchedRow sid rd <;> simp
      cases hm : matchedRow sid rd with
      | none =>
          rw [hsplit, hm] at h
          simp only [processRound, hm]
          obtain ⟨b1, c1, m1⟩ := ih acc (by simpa using h)
          rw [hsplit, hm]
          simpa using ⟨b1, c1, m1⟩
      | some row =>
          rw [hsplit, hm] at h
          simp only [List.length_append, List.length_cons, List.length_nil] at h
          simp only [processRound, hm]
          have hcc : checkCommit (enqueue acc.1 (.deleteRoundData cid rd.id row.id)) =
              enqueue acc.1 (.deleteRoundData cid rd.id row.id) := by
            unfold checkCommit
            rw [if_neg]
            rw [enqueue_opCount]
            omega
          rw [hcc]
          obtain ⟨b1, c1, m1⟩ := ih (enqueue acc.1 (.deleteRoundData cid rd.id row.id),
            ⟨acc.2.companiesAffected, acc.2.roundsDeleted + 1, acc.2.placementsDeleted,
             acc.2.yearsAffected, acc.2.totalOffers⟩)
            (by rw [enqueue_opCount]; omega)
          refine ⟨?_, ?_, ?_⟩
          · rw [b1, hsplit, hm]
            simp [enqueue]
          · rw [c1, hsplit, hm, enqueue_opCount]
            simp
            omega
          · rw [m1]
            rfl

theorem processCompany_no_commit (db : DB) (sid : String)
    (acc : BState × CascadeStats) (entry : String × CompanyInfo)
    (hp : entry.2.finalSelection = false)
    (h : acc.1.opCount + (roundOps sid entry.1 (roundsOf db entry.1)).length ≤ 498) :
    (processCompany db sid acc entry).1 =
      ⟨acc.1.batch ++ roundOps sid entry.1 (roundsOf db entry.1)
         ++ [.updateCompany entry.1 false],
       acc.1.opCount + (roundOps sid entry.1 (roundsOf db entry.1)).length + 1,
       acc.1.committed⟩ := by
  unfold processCompany
  simp only [hp, Bool.false_eq_true, if_false]
  rw [show ((lookupA entry.1 db.companies).map Company.rounds).getD [] =
    roundsOf db entry.1 from rfl]
  obtain ⟨b1, c1, m1⟩ := roundsFold_no_commit sid entry.1 (roundsOf db entry.1)
    (acc.1,
     ⟨acc.2.companiesAffected + 1, acc.2.roundsDeleted, acc.2.placementsDeleted,
      addYear acc.2.yearsAffected entry.2.year, acc.2.totalOffers⟩)
    (by show acc.1.opCount + _ ≤ 499; omega)
  have hcc : checkCommit (enqueue
      ((roundsOf db entry.1).foldl (processRound sid entry.1)
        (acc.1,
         ⟨acc.2.companiesAffected + 1, acc.2.roundsDeleted, acc.2.placementsDeleted,
          addYear acc.2.yearsAffected entry.2.year, acc.2.totalOffers⟩)).1
      (.updateCompany entry.1 false)) =
      enqueue
      ((roundsOf db entry.1).foldl (processRound sid entry.1)
        (acc.1,
         ⟨acc.2.companiesAffected + 1, acc.2.roundsDeleted, acc.2.placementsDeleted,
          addYear acc.2.yearsAffected entry.2.year, acc.2.totalOffers⟩)).1
      (.updateCompany entry.1 false) := by
    unfold checkCommit
    rw [if_neg]
    rw [enqueue_opCount, c1]
    show ¬ (acc.1.opCount + _ + 1 ≥ 500)
    omega
  rw [hcc, enqueue_eq, b1, c1, m1]

theorem flush_committed_eq (st : BState) (op : WriteOp) :
    (if (enqueue st op).opCount > 0 then commitBatch (enqueue st op)
     else enqueue st op).committed = st.committed ++ [st.batch ++ [op]] := by
  rw [if_pos (by simp [enqueue])]
  rfl

theorem cascadeCore_committed_eq (db : DB) (sid : String) (stu : Student) :
    (cascadeCore db sid stu).1.committed =
      ((stu.companyStatus.foldl (processCompany db sid)
          (emptyBState, ⟨0, 0, 0, [], stu.totalOffers⟩)).2.yearsAffected.foldl
        (fun st y => enqueue st (.updateYear y (placedCompaniesInYear stu.companyStatus y)))
        (stu.companyStatus.foldl (processCompany db sid)
          (emptyBState, ⟨0, 0, 0, [], stu.totalOffers⟩)).1).committed ++
      [((stu.companyStatus.foldl (processCompany db sid)
          (emptyBState, ⟨0, 0, 0, [], stu.totalOffers⟩)).2.yearsAffected.foldl
        (fun st y => enqueue st (.updateYear y (placedCompaniesInYear stu.companyStatus y)))
        (stu.companyStatus.foldl (processCompany db sid)
          (emptyBState, ⟨0, 0, 0, [], stu.totalOffers⟩)).1).batch ++
       [WriteOp.deleteStudent sid]] :=
  flush_committed_eq _ _

theorem overflow_roundOps :
    roundOps "S" "c1" (roundsOf overflowDB "c1") =
      List.replicate 498 (.deleteRoundData "c1" "r" "d") := by
  rw [show roundsOf overflowDB "c1" = List.replicate 498 ⟨"r", [⟨"d", "S"⟩]⟩ from rfl]
  unfold roundOps
  exact filterMap_replicate_some 498 _ _ _ rfl

theorem overflow_roundOps_length :
    (roundOps "S" "c1" (roundsOf overflowDB "c1")).length = 498 := by
  rw [overflow_roundOps, List.length_replicate]

theorem overflow_core_committed :
    (cascadeCore overflowDB "S" overflowStudent).1.committed =
      [roundOps "S" "c1" (roundsOf overflowDB "c1")
        ++ [.updateCompany "c1" false]
        ++ [.updateYear 2025 (placedCompaniesInYear overflowStudent.companyStatus 2025)]
        ++ [.deleteStudent "S"]] := by
  have hA1 : (overflowStudent.companyStatus.foldl (processCompany overflowDB "S")
      (emptyBState, ⟨0, 0, 0, [], overflowStudent.totalOffers⟩)).1 =
      ⟨roundOps "S" "c1" (roundsOf overflowDB "c1") ++ [.updateCompany "c1" false],
       499, []⟩ := by
    rw [show overflowStudent.companyStatus =
      [("c1", (⟨some 2025, false⟩ : CompanyInfo))] from rfl]
    rw [List.foldl_cons, List.foldl_nil]
    rw [processCompany_no_commit overflowDB "S"
      (emptyBState, ⟨0, 0, 0, [], overflowStudent.totalOffers⟩)
      ("c1", ⟨some 2025, false⟩) rfl
      (by simp [emptyBState, overflow_roundOps_length])]
    simp [emptyBState, overflow_roundOps_length]
  have hya : (overflowStudent.companyStatus.foldl (processCompany overflowDB "S")
      (emptyBState, ⟨0, 0, 0, [], overflowStudent.totalOffers⟩)).2.yearsAffected =
      [2025] := by
    obtain ⟨_, _, _, _, h5, _⟩ := companiesFold_spec overflowDB "S"
      overflowStudent.companyStatus
      (emptyBState, ⟨0, 0, 0, [], overflowStudent.totalOffers⟩)
    rw [h5]
    rfl
  rw [cascadeCore_committed_eq, hya, hA1]
  rw [List.foldl_cons, List.foldl_nil, enqueue_eq]
  simp

theorem cascade_committed_structure (db : DB) (sid : String) (stu : Student)
    (now : Nat) (h : lookupA sid db.students = some stu) :
    (delete_student_cascade db sid now).committed =
      (cascadeCore db sid stu).1.committed ++ [[WriteOp.deleteStudent sid]] := by
  unfold delete_student_cascade
  rw [h]
  rfl

theorem overflow_committed_lengths :
    (delete_student_cascade overflowDB "S" 0).committed.map List.length = [501, 1] := by
  rw [cascade_committed_structure overflowDB "S" overflowStudent 0 rfl,
    overflow_core_committed]
  simp [overflow_roundOps_length]

/-- C2 counterexample: on the overflow store (one company with 498 matching
round-data rows), the count stands at 499 after the per-company checks, and
the year update and student deletion are enqueued with no ceiling check, so
the final commit writes a batch of 501 operations — a committed batch can
exceed 500, contradicting the claim. -/
theorem claim_C2_counterexample :
    ((delete_student_cascade overflowDB "S" 0).committed.map List.length = [501, 1])
    ∧ ¬ (∀ b ∈ (delete_student_cascade overflowDB "S" 0).committed,
          b.length ≤ 500) := by
  refine ⟨overflow_committed_lengths, ?_⟩
  intro hall
  have h501 : (501 : Nat) ∈
      (delete_student_cascade overflowDB "S" 0).committed.map List.length := by
    rw [overflow_committed_lengths]
    simp
  obtain ⟨b, hb, hlen⟩ := List.mem_map.mp h501
  have := hall b hb
  omega
